import Mathlib

/-! # vimpc: `Mpc::Song` (src/song.cpp)

A shallow embedding of the track-metadata entity of vimpc: its attribute store,
its playlist reference counter with the notifications it fires, the sort-key
helper `SwapThe`, and the display-format renderer `FormatString` /
`ParseString` with its one-entry render cache.

Conventions of the embedding

* `std::string` is `Str`, a list of characters. A `const char *` argument is an
  `Option Str`; `none` is the `NULL` pointer.
* `int32_t` is `I32`, the integers of the 32-bit two's-complement range;
  arithmetic on it wraps (`wrapInt32`). A `uint32_t` is an integer reduced
  modulo `2 ^ 32` (`wrapUInt32`).
* A `std::string::const_iterator` is the list of characters from its position
  to the end of the string. The buffer of a `std::string` ends in a NUL
  terminator, which reads as `NUL` at the empty list. Moving an iterator that
  already stands on the terminator and dereferencing it leaves the buffer: the
  parse then ends in `ParseError.outOfBounds`.
* Calls into the collaborators (`LibraryEntry`, `Main::Directory()`) are
  recorded as a list of `Notification`s, in call order.
* The entity lock (`mutex_`) has no sequential content and is not modelled.
-/

namespace Mpc

/-! ## Strings and machine integers -/

/-- A `std::string`, as its list of characters. -/
abbrev Str := List Char

/-- The NUL character, which terminates the buffer of a `std::string`. -/
def NUL : Char := Char.ofNat 0

def INT32_MIN : Int := -2147483648

def INT32_MAX : Int := 2147483647

/-- Reduction of an integer to the two's-complement 32-bit range. -/
def wrapInt32 (x : Int) : Int := (x + 2147483648) % 4294967296 - 2147483648

/-- Reduction of an integer to the `uint32_t` range (`static_cast<uint32_t>`). -/
def wrapUInt32 (x : Int) : Int := x % 4294967296

/-- An `int32_t` value. -/
abbrev I32 := { v : Int // INT32_MIN ≤ v ∧ v ≤ INT32_MAX }

/-- The `int32_t` holding `x` reduced to 32 bits. -/
def I32.ofInt (x : Int) : I32 :=
  ⟨wrapInt32 x, by unfold wrapInt32 INT32_MIN INT32_MAX; omega⟩

/-! ## The sentinels (song.cpp, lines 29-34) -/

def UnknownArtist : Str := "Unknown Artist".toList

def UnknownAlbum : Str := "Unknown Album".toList

def UnknownTitle : Str := "Unknown".toList

def UnknownURI : Str := "Unknown".toList

def UnknownGenre : Str := "Unknown".toList

def UnknownDate : Str := "Unknown".toList

/-! ## The entity -/

/-- The data members of `Mpc::Song`. `entry_` is the non-owning pointer to the
library entry, `none` for `NULL`; the entry is identified by a handle. -/
structure Song where
  reference_ : I32
  artist_ : Str
  album_ : Str
  title_ : Str
  track_ : Str
  uri_ : Str
  genre_ : Str
  date_ : Str
  duration_ : I32
  durationString_ : Str
  lastFormat_ : Str
  formatted_ : Str
  entry_ : Option Nat
deriving DecidableEq

/-- The default constructor `Song::Song()`. -/
def Song.new : Song :=
  { reference_ := I32.ofInt 0
    artist_ := []
    album_ := []
    title_ := []
    track_ := []
    uri_ := []
    genre_ := []
    date_ := []
    duration_ := I32.ofInt 0
    durationString_ := []
    lastFormat_ := []
    formatted_ := []
    entry_ := none }

/-- A call made into a collaborator. -/
inductive Notification where
  /-- `song->entry_->AddedToPlaylist()` -/
  | entryAddedToPlaylist (entry : Nat)
  /-- `Main::Directory().AddedToPlaylist(song->URI())` -/
  | directoryAddedToPlaylist (uri : Str)
  /-- `song->entry_->RemovedFromPlaylist()` -/
  | entryRemovedFromPlaylist (entry : Nat)
  /-- `Main::Directory().RemovedFromPlaylist(song->URI())` -/
  | directoryRemovedFromPlaylist (uri : Str)
deriving DecidableEq

/-! ## Getters -/

def Song.Reference (s : Song) : I32 := s.reference_

def Song.Artist (s : Song) : Str := s.artist_

def Song.Album (s : Song) : Str := s.album_

def Song.Title (s : Song) : Str := s.title_

def Song.Track (s : Song) : Str := s.track_

def Song.URI (s : Song) : Str := s.uri_

def Song.Genre (s : Song) : Str := s.genre_

def Song.Date (s : Song) : Str := s.date_

def Song.Duration (s : Song) : I32 := s.duration_

def Song.Entry (s : Song) : Option Nat := s.entry_

def Song.DurationString (s : Song) : Str := s.durationString_

/-! ## The reference counter (song.cpp, lines 88-110) -/

/-- `Song::IncrementReference`: the song afterwards and the calls made. -/
def Song.IncrementReference (song : Song) : Song × List Notification :=
  let song1 := { song with reference_ := I32.ofInt (song.reference_.val + 1) }
  match song1.entry_ with
  | some entry =>
    if song1.reference_.val = 1 then
      (song1, [Notification.entryAddedToPlaylist entry,
               Notification.directoryAddedToPlaylist song1.URI])
    else (song1, [])
  | none => (song1, [])

/-- `Song::DecrementReference`: the song afterwards and the calls made. -/
def Song.DecrementReference (song : Song) : Song × List Notification :=
  let song1 := { song with reference_ := I32.ofInt (song.reference_.val - 1) }
  match song1.entry_ with
  | some entry =>
    if song1.reference_.val = 0 then
      (song1, [Notification.entryRemovedFromPlaylist entry,
               Notification.directoryRemovedFromPlaylist song1.URI])
    else (song1, [])
  | none => (song1, [])

/-! ## The sort-key helper (song.cpp, lines 112-118)

`SwapThe` replaces the first match of the regular expression
`^\s*[tT][hH][eE]\s+` by the empty string and, when there was a match, appends
`", The"`. The expression is anchored and each of its quantifiers is followed
by a class disjoint from the one it repeats, so the match, when there is one, is
the greedy one computed below. -/

/-- The class `\s` of PCRE: space, `\t`, `\n`, `\v`, `\f`, `\r`. -/
def isSpace (c : Char) : Bool :=
  c = ' ' || c = '\t' || c = '\n' || c = Char.ofNat 11 || c = Char.ofNat 12 || c = '\r'

/-- Greedy `\s*`: the input after its leading whitespace. -/
def skipSpaces : Str → Str
  | [] => []
  | c :: cs => if isSpace c then skipSpaces cs else c :: cs

/-- One character of the class `[xX]` given by its two members. -/
def matchClass (lo up : Char) : Str → Option Str
  | [] => none
  | c :: cs => if c = lo ∨ c = up then some cs else none

/-- Greedy `\s+`: the input after one or more whitespace characters. -/
def matchSpaces1 : Str → Option Str
  | [] => none
  | c :: cs => if isSpace c then some (skipSpaces cs) else none

/-- The input after the match of `^\s*[tT][hH][eE]\s+`, when it matches. -/
def matchThe (s : Str) : Option Str :=
  (matchClass 't' 'T' (skipSpaces s)).bind fun s1 =>
  (matchClass 'h' 'H' s1).bind fun s2 =>
  (matchClass 'e' 'E' s2).bind fun s3 =>
  matchSpaces1 s3

/-- `Song::SwapThe`. -/
def SwapThe (s : Str) : Str :=
  match matchThe s with
  | some rest => rest ++ ", The".toList
  | none => s

/-! ## Setters (song.cpp, lines 120-276) -/

def Song.SetArtist (s : Song) (artist : Option Str) : Song :=
  match artist with
  | some a => { s with lastFormat_ := [], artist_ := a }
  | none => { s with lastFormat_ := [], artist_ := UnknownArtist }

def Song.SetAlbum (s : Song) (album : Option Str) : Song :=
  match album with
  | some a => { s with lastFormat_ := [], album_ := a }
  | none => { s with lastFormat_ := [], album_ := UnknownAlbum }

def Song.SetTitle (s : Song) (title : Option Str) : Song :=
  match title with
  | some t => { s with lastFormat_ := [], title_ := t }
  | none => { s with lastFormat_ := [], title_ := UnknownTitle }

/-- `Song::SetTrack`. On `NULL` the source assigns `""` to its parameter
`track`, not to the member `track_`, which keeps its value. -/
def Song.SetTrack (s : Song) (track : Option Str) : Song :=
  match track with
  | some t => { s with lastFormat_ := [], track_ := t }
  | none => { s with lastFormat_ := [] }

def Song.SetURI (s : Song) (uri : Option Str) : Song :=
  match uri with
  | some u => { s with lastFormat_ := [], uri_ := u }
  | none => { s with lastFormat_ := [], uri_ := UnknownURI }

def Song.SetGenre (s : Song) (genre : Option Str) : Song :=
  match genre with
  | some g => { s with genre_ := g }
  | none => { s with genre_ := UnknownGenre }

def Song.SetDate (s : Song) (date : Option Str) : Song :=
  match date with
  | some d => { s with date_ := d }
  | none => { s with date_ := UnknownDate }

/-! ### `snprintf` of a decimal integer -/

def digitChar (d : Nat) : Char := Char.ofNat (48 + d)

/-- The decimal digits of `n`, most significant first; `fuel` bounds their number. -/
def decDigits : Nat → Nat → Str
  | 0, _ => []
  | fuel + 1, n =>
    if n < 10 then [digitChar n] else decDigits fuel (n / 10) ++ [digitChar (n % 10)]

/-- The decimal representation of a natural number. -/
def decStr (n : Nat) : Str := decDigits (n + 1) n

/-- `s` padded on the left with `c` to `width` characters. -/
def leftPad (width : Nat) (c : Char) (s : Str) : Str :=
  List.replicate (width - s.length) c ++ s

/-- The conversion `%<width>.<prec>d` of `printf` applied to `x`: at least `prec`
digits (zero-padded), a minus sign when negative, the whole right-aligned with
spaces in `width` columns. -/
def printfD (width prec : Nat) (x : Int) : Str :=
  let digits := leftPad prec '0' (decStr x.natAbs)
  leftPad width ' ' (if x < 0 then '-' :: digits else digits)

/-- `Song::SetDuration`. `minutes` and `seconds` are `uint32_t`; `%d` prints
them as `int`. `snprintf` keeps at most 31 characters. -/
def Song.SetDuration (s : Song) (duration : I32) : Song :=
  let minutes : Int := wrapUInt32 (Int.tdiv duration.val 60)
  let seconds : Int := wrapUInt32 (duration.val - wrapUInt32 (minutes * 60))
  let cduration : Str :=
    (printfD 2 1 (wrapInt32 minutes) ++ ':' :: printfD 0 2 (wrapInt32 seconds)).take 31
  { s with lastFormat_ := [], duration_ := duration, durationString_ := cduration }

def Song.SetEntry (s : Song) (entry : Option Nat) : Song :=
  { s with entry_ := entry }

/-! ## The format renderer (song.cpp, lines 302-401) -/

deriving instance DecidableEq for Except

/-- How a parse can fail to produce a string. -/
inductive ParseError where
  /-- The iterator was dereferenced beyond the NUL terminator of the template. -/
  | outOfBounds
  /-- The iteration bound of the model was used up (see `FormatString`). -/
  | outOfFuel
deriving DecidableEq

/-- What a call of `ParseString` leaves behind: the returned string, the
by-reference arguments `it` and `valid`, and the member `formatted_`. -/
structure ParseResult where
  result : Str
  it : Str
  valid : Bool
  formatted : Str
deriving DecidableEq

/-- The dereference `*it` of an iterator inside the buffer. -/
def peek : Str → Char
  | [] => NUL
  | c :: _ => c

/-- The dispatch table `songInfo` of `ParseString`, applied to the song. -/
def songInfo (song : Song) (c : Char) : Str :=
  if c = 'a' then song.Artist
  else if c = 'A' then song.Artist
  else if c = 'b' then song.Album
  else if c = 'B' then song.Album
  else if c = 'l' then song.DurationString
  else if c = 't' then song.Title
  else if c = 'n' then song.Track
  else if c = 'f' then song.URI
  else []

/-- The characters that select an entry of `songInfo` (song.cpp, lines 366-369). -/
def isField (c : Char) : Bool :=
  c = 'a' || c = 'A' || c = 'b' || c = 'B' || c = 'l' || c = 't' || c = 'n' || c = 'f'

/-- The value substituted for the field specifier `c` (lines 371-376). -/
def fieldValue (song : Song) (c : Char) : Str :=
  if c = 'B' ∨ c = 'A' then SwapThe (songInfo song c) else songInfo song c

/-- The test of line 378: the value is empty or begins with `"Unknown"`. -/
def isUnknown (val : Str) : Bool :=
  val = [] || val.take 7 = "Unknown".toList

/-- The loop condition `*++it` once `it` has been incremented to `it1`: on NUL
the loop is left, `formatted_` is stored and the result returned (lines
398-400); otherwise the body `k` runs again. -/
def loopTest (k : Str → Bool → Str → Str → Except ParseError ParseResult)
    (it1 : Str) (valid : Bool) (result formatted : Str) : Except ParseError ParseResult :=
  if peek it1 = NUL then .ok ⟨result, it1, valid, result⟩
  else k it1 valid result formatted

/-- The loop condition `while (*++it)` of line 396, from the iterator `it` the
body ended with. -/
def whileCond (k : Str → Bool → Str → Str → Except ParseError ParseResult)
    (it : Str) (valid : Bool) (result formatted : Str) : Except ParseError ParseResult :=
  match it with
  | [] => .error .outOfBounds
  | _ :: it1 => loopTest k it1 valid result formatted

/-- The `do ... while` loop of `Song::ParseString` (lines 337-396) together
with the epilogue (lines 398-400), entered at the body with iterator `it`, flag
`valid`, the local `result` and the member `formatted_`. The first argument
bounds the number of iterations on any one path. -/
def ParseStringLoop (song : Song) :
    Nat → Str → Bool → Str → Str → Except ParseError ParseResult
  | 0, _, _, _, _ => .error .outOfFuel
  | fuel + 1, it, valid, result, formatted =>
    match it with
    | [] =>
      -- `*it` is the terminator: it is appended as a literal, then `*++it`
      -- reads behind it
      .error .outOfBounds
    | c :: it1 =>
      if c = '\\' then
        -- `*++it; result += *it; continue;`
        whileCond (ParseStringLoop song fuel) it1 valid (result ++ [peek it1]) formatted
      else if c = '{' then
        -- `*++it; result += ParseString(it, valid);`
        match ParseStringLoop song fuel it1 valid [] formatted with
        | .error e => .error e
        | .ok r =>
          whileCond (ParseStringLoop song fuel) r.it r.valid (result ++ r.result) r.formatted
      else if c = '}' then
        if valid then .ok ⟨result, it, valid, result⟩
        else .ok ⟨[], it, valid, formatted⟩
      else if c = '|' then
        whileCond (ParseStringLoop song fuel) it (!valid) result formatted
      else if c = '%' then
        -- `*++it;`
        let d := peek it1
        if d = '%' then
          whileCond (ParseStringLoop song fuel) it1 valid (result ++ [d]) formatted
        else if isField d then
          let val := fieldValue song d
          if isUnknown val then
            whileCond (ParseStringLoop song fuel) it1 false result formatted
          else
            whileCond (ParseStringLoop song fuel) it1 valid (result ++ val) formatted
        else
          whileCond (ParseStringLoop song fuel) it1 false result formatted
      else
        whileCond (ParseStringLoop song fuel) it valid (result ++ [c]) formatted

/-- `Song::ParseString`: the local `result` starts empty. -/
def ParseString (song : Song) (fuel : Nat) (it : Str) (valid : Bool) (formatted : Str) :
    Except ParseError ParseResult :=
  ParseStringLoop song fuel it valid [] formatted

/-- `Song::FormatString`: the returned string and the song afterwards (the
cache members are `mutable`). Every iteration of the loop of `ParseString`
moves the iterator forward, so `fmt.length + 1` iterations bound every path. -/
def Song.FormatString (s : Song) (fmt : Str) : Except ParseError (Str × Song) :=
  if s.lastFormat_ = fmt then .ok (s.formatted_, s)
  else
    match ParseString s (fmt.length + 1) fmt true s.formatted_ with
    | .error e => .error e
    | .ok r => .ok (r.result, { s with lastFormat_ := fmt, formatted_ := r.formatted })

/-! ## Vocabulary of the statements -/

/-- The two calls made when a song enters its first playlist. -/
def addedPair (song : Song) (entry : Nat) : List Notification :=
  [Notification.entryAddedToPlaylist entry, Notification.directoryAddedToPlaylist song.URI]

/-- The two calls made when a song leaves its last playlist. -/
def removedPair (song : Song) (entry : Nat) : List Notification :=
  [Notification.entryRemovedFromPlaylist entry, Notification.directoryRemovedFromPlaylist song.URI]

/-- A lexical item of a template outside the grouping characters: a literal
character, a two-character specifier `%c`, or a two-character escape `\c`. -/
inductive Tok where
  | lit (c : Char)
  | spec (c : Char)
  | esc (c : Char)
deriving DecidableEq

/-- The characters `ParseString` gives a meaning to. -/
def isSpecial (c : Char) : Bool :=
  c = '\\' || c = '\x7b' || c = '\x7d' || c = '|' || c = '%'

/-- The text of an item. -/
def Tok.chars : Tok → Str
  | .lit c => [c]
  | .spec c => ['%', c]
  | .esc c => ['\\', c]

/-- The text of a sequence of items. -/
def Tok.flat : List Tok → Str
  | [] => []
  | t :: ts => t.chars ++ Tok.flat ts

/-- Well-formed items: a literal item is neither NUL nor one of the special
characters. -/
def Tok.wf : Tok → Bool
  | .lit c => c ≠ NUL && !isSpecial c
  | .spec _ => true
  | .esc _ => true

/-- Items of a template that has no backslash, brace or bar and no NUL: literal
characters that are not special, and specifiers `%c` whose `c` is none of these. -/
def Tok.plain : Tok → Bool
  | .lit c => c ≠ NUL && !isSpecial c
  | .spec c => c ≠ NUL && c ≠ '\\' && c ≠ '\x7b' && c ≠ '\x7d' && c ≠ '|'
  | .esc _ => false

/-- A value counts as present when it is non-empty and does not begin with
`"Unknown"`. -/
def isPresent (v : Str) : Bool :=
  v ≠ [] && !("Unknown".toList).isPrefixOf v

/-- The value a field specifier stands for: `%a` artist, `%b` album, `%l`
duration string, `%t` title, `%n` track, `%f` URI, and for the sort-key
specifiers `%A`, `%B` the artist and the album after `SwapThe`. -/
def specValue (song : Song) (c : Char) : Option Str :=
  if c = 'a' then some song.artist_
  else if c = 'b' then some song.album_
  else if c = 'l' then some song.durationString_
  else if c = 't' then some song.title_
  else if c = 'n' then some song.track_
  else if c = 'f' then some song.uri_
  else if c = 'A' then some (SwapThe song.artist_)
  else if c = 'B' then some (SwapThe song.album_)
  else none

/-- The text an item contributes: a literal or escaped character itself, `%`
for `%%`, the value of a field specifier when it is present, and nothing for a
field that is not present or for any other character after `%`. -/
def Tok.render (song : Song) : Tok → Str
  | .lit c => [c]
  | .esc c => [c]
  | .spec c =>
    if c = '%' then ['%']
    else match specValue song c with
      | some v => if isPresent v then v else []
      | none => []

/-- Whether an item leaves the validity flag alone: every item does, except a
field specifier whose value is not present and a `%` followed by a character
that is no specifier. -/
def Tok.keeps (song : Song) : Tok → Bool
  | .lit _ => true
  | .esc _ => true
  | .spec c =>
    if c = '%' then true
    else match specValue song c with
      | some v => isPresent v
      | none => false

/-- The text a sequence of items contributes, left to right. -/
def Tok.renderAll (song : Song) : List Tok → Str
  | [] => []
  | t :: ts => t.render song ++ Tok.renderAll song ts

/-- Whether every item of a sequence leaves the validity flag alone. -/
def Tok.keepAll (song : Song) : List Tok → Bool
  | [] => true
  | t :: ts => t.keeps song && Tok.keepAll song ts

/-- The text of an item in the reading that knows the field specifiers `%a`,
`%b`, `%l`, `%t`, `%n`, `%f` only and lets every other character after `%`
contribute nothing. -/
def Tok.renderLowercaseOnly (song : Song) : Tok → Str
  | .lit c => [c]
  | .esc c => [c]
  | .spec c =>
    if c = '%' then ['%']
    else if c = 'a' then (if isPresent song.artist_ then song.artist_ else [])
    else if c = 'b' then (if isPresent song.album_ then song.album_ else [])
    else if c = 'l' then (if isPresent song.durationString_ then song.durationString_ else [])
    else if c = 't' then (if isPresent song.title_ then song.title_ else [])
    else if c = 'n' then (if isPresent song.track_ then song.track_ else [])
    else if c = 'f' then (if isPresent song.uri_ then song.uri_ else [])
    else []

/-- The concatenation of `Tok.renderLowercaseOnly` over a sequence of items. -/
def Tok.renderAllLowercaseOnly (song : Song) : List Tok → Str
  | [] => []
  | t :: ts => t.renderLowercaseOnly song ++ Tok.renderAllLowercaseOnly song ts

/-- The word "the" in any letter case. -/
def isTheWord : Str → Bool
  | [t, h, e] => (t = 't' || t = 'T') && (h = 'h' || h = 'H') && (e = 'e' || e = 'E')
  | _ => false

/-- The shape `SwapThe` rewrites: whitespace (possibly none), the word "the"
in any letter case, whitespace (at least one character), a remainder. -/
def HasLeadingThe (s : Str) : Prop :=
  ∃ ws1 w ws2 r, s = ws1 ++ w ++ ws2 ++ r ∧ (∀ c ∈ ws1, isSpace c = true) ∧
    isTheWord w = true ∧ ws2 ≠ [] ∧ (∀ c ∈ ws2, isSpace c = true)

/-! ### Example songs -/

/-- A fresh song given the artist "Miles Davis" and the title "So What". -/
def exampleSong : Song :=
  (Song.new.SetArtist (some "Miles Davis".toList)).SetTitle (some "So What".toList)

/-- A fresh song whose artist was set to absent and whose title is "So What". -/
def exampleSongNoArtist : Song :=
  (Song.new.SetArtist none).SetTitle (some "So What".toList)

/-- A fresh song after it rendered the template "old". -/
def exampleSongRenderedOld : Song :=
  { Song.new with lastFormat_ := "old".toList, formatted_ := "old".toList }

/-- A fresh song after it rendered the template "x". -/
def exampleSongRenderedX : Song :=
  { Song.new with lastFormat_ := "x".toList, formatted_ := "x".toList }

/-- A fresh song after it rendered the template "y". -/
def exampleSongRenderedY : Song :=
  { Song.new with lastFormat_ := "y".toList, formatted_ := "y".toList }

/-- What a parse returns to its caller: string, iterator and flag, without the
cache member. -/
def ParseResult.view (r : ParseResult) : Str × Str × Bool := (r.result, r.it, r.valid)

/-- Two songs agree on the members the renderer reads. -/
def Song.sameFields (s t : Song) : Prop :=
  s.artist_ = t.artist_ ∧ s.album_ = t.album_ ∧ s.title_ = t.title_ ∧ s.track_ = t.track_ ∧
    s.uri_ = t.uri_ ∧ s.durationString_ = t.durationString_

/-- A fresh song attached to the library entry with handle 7. -/
def exampleSongInLibrary : Song := Song.new.SetEntry (some 7)

/-! ## The reference counter: notifications -/

/-- A fresh song whose track was set to "7". -/
def exampleSongTrack7 : Song := Song.new.SetTrack (some "7".toList)

/-! ### Reading a duration string -/

/-- Whether a character is one of the decimal digits `0` to `9`. -/
def isDecDigit (c : Char) : Bool := decide (48 ≤ c.toNat) && decide (c.toNat ≤ 57)

/-- The number a string of decimal digits stands for. -/
def decValue (s : Str) : Nat := s.foldl (fun acc c => 10 * acc + (c.toNat - 48)) 0

/-- A duration string read back: leading spaces, a decimal number of minutes,
a colon, exactly two decimal digits of seconds; the value is the number of
seconds. -/
def parseDuration (s : Str) : Option Nat :=
  let s1 := s.dropWhile (fun c => c = ' ')
  let ms := s1.takeWhile isDecDigit
  match s1.dropWhile isDecDigit with
  | [c, a, b] =>
    if c = ':' ∧ ms ≠ [] ∧ isDecDigit a = true ∧ isDecDigit b = true then
      some (60 * decValue ms + decValue [a, b])
    else none
  | _ => none

/-! ### Sequences of calls on the reference counter -/

/-- A call on the reference counter. -/
inductive RefOp where
  | increment
  | decrement
deriving DecidableEq

/-- One call: the song afterwards and the notifications it made. -/
def Song.applyOp (s : Song) : RefOp → Song × List Notification
  | .increment => s.IncrementReference
  | .decrement => s.DecrementReference

/-- A sequence of calls, in order: the song afterwards and all notifications
made, in order. -/
def Song.runOps (s : Song) : List RefOp → Song × List Notification
  | [] => (s, [])
  | op :: ops =>
    (((s.applyOp op).1.runOps ops).1, (s.applyOp op).2 ++ ((s.applyOp op).1.runOps ops).2)

/-- The number of increments less the number of decrements. -/
def balance : List RefOp → Int
  | [] => 0
  | .increment :: ops => 1 + balance ops
  | .decrement :: ops => -1 + balance ops

/-- The first `k` notification pairs of the alternation added, removed, added,
... for the library entry `entry` and the location `uri`. -/
def alternating (entry : Nat) (uri : Str) : Nat → List Notification
  | 0 => []
  | k + 1 =>
    alternating entry uri k ++
      (if k % 2 = 0 then
        [Notification.entryAddedToPlaylist entry, Notification.directoryAddedToPlaylist uri]
      else
        [Notification.entryRemovedFromPlaylist entry,
          Notification.directoryRemovedFromPlaylist uri])

/-- The number of "added" pairs among notifications, counted at the call into
the library entry. -/
def pairsAdded : List Notification → Nat
  | [] => 0
  | .entryAddedToPlaylist _ :: ev => pairsAdded ev + 1
  | _ :: ev => pairsAdded ev

/-- The number of "removed" pairs among notifications. -/
def pairsRemoved : List Notification → Nat
  | [] => 0
  | .entryRemovedFromPlaylist _ :: ev => pairsRemoved ev + 1
  | _ :: ev => pairsRemoved ev

/-! ### The renderer with a log of its loop iterations

The same loop as `ParseStringLoop`, which in addition records, at the start of
every iteration of the loop of every `ParseString` call, the nesting depth of
that call (0 for the call made by `FormatString`) and the number of characters
from the iterator to the end of the template. -/

/-- An outcome of the parse together with the log of iterations, in the order
in which they were run. -/
structure Traced where
  out : Except ParseError ParseResult
  log : List (Nat × Nat)

/-- An iteration put in front of what followed it. -/
def Traced.after (here : Nat × Nat) (t : Traced) : Traced := ⟨t.out, here :: t.log⟩

/-- `whileCond` for the logging loop. -/
def whileCondT (k : Str → Bool → Str → Str → Traced)
    (it : Str) (valid : Bool) (result formatted : Str) : Traced :=
  match it with
  | [] => ⟨.error .outOfBounds, []⟩
  | _ :: it1 =>
    if peek it1 = NUL then ⟨.ok ⟨result, it1, valid, result⟩, []⟩
    else k it1 valid result formatted

/-- `ParseStringLoop` with the log; `depth` is the nesting depth of the call. -/
def ParseStringLoopT (song : Song) : Nat → Nat → Str → Bool → Str → Str → Traced
  | 0, _, _, _, _, _ => ⟨.error .outOfFuel, []⟩
  | fuel + 1, depth, it, valid, result, formatted =>
    match it with
    | [] => ⟨.error .outOfBounds, [(depth, 0)]⟩
    | c :: it1 =>
      Traced.after (depth, (c :: it1).length)
        (if c = '\\' then
          whileCondT (ParseStringLoopT song fuel depth) it1 valid (result ++ [peek it1]) formatted
        else if c = '{' then
          match (ParseStringLoopT song fuel (depth + 1) it1 valid [] formatted).out with
          | .error e =>
            ⟨.error e, (ParseStringLoopT song fuel (depth + 1) it1 valid [] formatted).log⟩
          | .ok r =>
            ⟨(whileCondT (ParseStringLoopT song fuel depth) r.it r.valid (result ++ r.result)
                r.formatted).out,
              (ParseStringLoopT song fuel (depth + 1) it1 valid [] formatted).log ++
                (whileCondT (ParseStringLoopT song fuel depth) r.it r.valid
                  (result ++ r.result) r.formatted).log⟩
        else if c = '}' then
          if valid then ⟨.ok ⟨result, it, valid, result⟩, []⟩
          else ⟨.ok ⟨[], it, valid, formatted⟩, []⟩
        else if c = '|' then
          whileCondT (ParseStringLoopT song fuel depth) it (!valid) result formatted
        else if c = '%' then
          let d := peek it1
          if d = '%' then
            whileCondT (ParseStringLoopT song fuel depth) it1 valid (result ++ [d]) formatted
          else if isField d then
            let val := fieldValue song d
            if isUnknown val then
              whileCondT (ParseStringLoopT song fuel depth) it1 false result formatted
            else
              whileCondT (ParseStringLoopT song fuel depth) it1 valid (result ++ val) formatted
          else
            whileCondT (ParseStringLoopT song fuel depth) it1 false result formatted
        else
          whileCondT (ParseStringLoopT song fuel depth) it valid (result ++ [c]) formatted)

/-- What holds of a logged run of the loop entered at depth `depth` with the
iterator at `it`: every logged iteration lies in `it`, at a depth from `depth`
to `depth` plus the number of opening braces in `it`; each logged iteration
starts strictly further on than the one before it; and a returned iterator is
at or behind `it` and at or behind every logged iteration. -/
def GoodRun (depth : Nat) (it : Str) (t : Traced) : Prop :=
  (∀ e ∈ t.log, e.2 ≤ it.length ∧ depth ≤ e.1 ∧ e.1 ≤ depth + it.count '{') ∧
    t.log.Pairwise (fun a b => b.2 < a.2) ∧
    ∀ r, t.out = .ok r → r.it <:+ it ∧ ∀ e ∈ t.log, r.it.length ≤ e.2

/-- What holds of the part of a logged run that follows an iteration started at
`x`: as `GoodRun`, with every logged iteration strictly further on than `x`. -/
def GoodTail (depth : Nat) (x : Str) (t : Traced) : Prop :=
  (∀ e ∈ t.log, e.2 < x.length ∧ depth ≤ e.1 ∧ e.1 ≤ depth + x.count '{') ∧
    t.log.Pairwise (fun a b => b.2 < a.2) ∧
    ∀ r, t.out = .ok r → r.it <:+ x ∧ ∀ e ∈ t.log, r.it.length ≤ e.2

/-- A fresh song whose artist was set to "The Unknown". -/
def exampleSongTheUnknown : Song := Song.new.SetArtist (some "The Unknown".toList)

theorem wrapInt32_of_range (x : Int) (h1 : INT32_MIN ≤ x) (h2 : x ≤ INT32_MAX) :
    wrapInt32 x = x := by
  unfold wrapInt32
  unfold INT32_MIN at h1
  unfold INT32_MAX at h2
  omega

theorem wrapInt32_succ_eq_one (x : Int) (h1 : INT32_MIN ≤ x) (h2 : x ≤ INT32_MAX) :
    wrapInt32 (x + 1) = 1 ↔ x = 0 := by
  unfold wrapInt32
  unfold INT32_MIN at h1
  unfold INT32_MAX at h2
  omega

theorem wrapInt32_pred_eq_zero (x : Int) (h1 : INT32_MIN ≤ x) (h2 : x ≤ INT32_MAX) :
    wrapInt32 (x - 1) = 0 ↔ x = 1 := by
  unfold wrapInt32
  unfold INT32_MIN at h1
  unfold INT32_MAX at h2
  omega

theorem wrapInt32_succ_pred (x : Int) (h1 : INT32_MIN ≤ x) (h2 : x ≤ INT32_MAX) :
    wrapInt32 (wrapInt32 (x + 1) - 1) = x := by
  unfold wrapInt32
  unfold INT32_MIN at h1
  unfold INT32_MAX at h2
  omega

theorem IncrementReference_fst (song : Song) :
    song.IncrementReference.1 = { song with reference_ := I32.ofInt (song.reference_.val + 1) } := by
  unfold Song.IncrementReference
  cases h : song.entry_
  · rfl
  · simp only [h]
    split <;> rfl

theorem DecrementReference_fst (song : Song) :
    song.DecrementReference.1 = { song with reference_ := I32.ofInt (song.reference_.val - 1) } := by
  unfold Song.DecrementReference
  cases h : song.entry_
  · rfl
  · simp only [h]
    split <;> rfl

theorem IncrementReference_snd (song : Song) :
    song.IncrementReference.2 =
      match song.entry_ with
      | some entry => if song.reference_.val = 0 then addedPair song entry else []
      | none => [] := by
  have h := wrapInt32_succ_eq_one song.reference_.val song.reference_.property.1
    song.reference_.property.2
  unfold Song.IncrementReference
  cases he : song.entry_ with
  | none => simp [he]
  | some e =>
    by_cases h0 : song.reference_.val = 0
    · simp [he, I32.ofInt, h0, addedPair, Song.URI, show wrapInt32 1 = 1 by decide]
    · have h1 : ¬ wrapInt32 (song.reference_.val + 1) = 1 := fun hc => h0 (h.1 hc)
      simp [he, I32.ofInt, h1, h0]

theorem DecrementReference_snd (song : Song) :
    song.DecrementReference.2 =
      match song.entry_ with
      | some entry => if song.reference_.val = 1 then removedPair song entry else []
      | none => [] := by
  have h := wrapInt32_pred_eq_zero song.reference_.val song.reference_.property.1
    song.reference_.property.2
  unfold Song.DecrementReference
  cases he : song.entry_ with
  | none => simp [he]
  | some e =>
    by_cases h0 : song.reference_.val = 1
    · simp [he, I32.ofInt, h0, removedPair, Song.URI, show wrapInt32 0 = 0 by decide]
    · have h1 : ¬ wrapInt32 (song.reference_.val - 1) = 0 := fun hc => h0 (h.1 hc)
      simp [he, I32.ofInt, h1, h0]

/-- C1: `IncrementReference` makes exactly the two calls
`entry_->AddedToPlaylist()`, `Directory().AddedToPlaylist(URI())`, in this
order and once each, when a back-reference is present and the count before the
call was 0, and makes no call in every other case; `DecrementReference` makes
exactly the two calls `entry_->RemovedFromPlaylist()`,
`Directory().RemovedFromPlaylist(URI())` when a back-reference is present and
the count before the call was 1, and makes no call in every other case. -/
theorem reference_notifications (song : Song) :
    (∀ entry, song.entry_ = some entry → song.reference_.val = 0 →
        song.IncrementReference.2 = addedPair song entry) ∧
    (song.entry_ = none ∨ song.reference_.val ≠ 0 → song.IncrementReference.2 = []) ∧
    (∀ entry, song.entry_ = some entry → song.reference_.val = 1 →
        song.DecrementReference.2 = removedPair song entry) ∧
    (song.entry_ = none ∨ song.reference_.val ≠ 1 → song.DecrementReference.2 = []) := by
  rw [IncrementReference_snd, DecrementReference_snd]
  refine ⟨?_, ?_, ?_, ?_⟩
  · intro entry he h0
    simp [he, h0]
  · rintro (he | h0)
    · simp [he]
    · cases he : song.entry_ <;> simp [h0]
  · intro entry he h1
    simp [he, h1]
  · rintro (he | h1)
    · simp [he]
    · cases he : song.entry_ <;> simp [h1]

/-- Witness of C1: a fresh song attached to the library entry 7 enters its
first playlist. -/
theorem reference_notifications_witness :
    exampleSongInLibrary.IncrementReference.2 = addedPair exampleSongInLibrary 7 :=
  (reference_notifications exampleSongInLibrary).1 7 rfl rfl

/-- C2: `DecrementReference` after `IncrementReference` gives back the song it
started from: the count has its prior value and every attribute, the
back-reference and the render cache are as before. `IncrementReference` alone
changes nothing but the count, which it raises by exactly 1 (below `INT32_MAX`,
where the source's `+= 1` is defined); the following `DecrementReference`
lowers it by exactly 1. The two calls together notify if and only if the prior
count was 0 and a back-reference is present. -/
theorem increment_then_decrement (s : Song) :
    s.IncrementReference.1.DecrementReference.1 = s ∧
    s.IncrementReference.1 = { s with reference_ := s.IncrementReference.1.reference_ } ∧
    (s.reference_.val < INT32_MAX →
      s.IncrementReference.1.reference_.val = s.reference_.val + 1 ∧
      s.IncrementReference.1.DecrementReference.1.reference_.val =
        s.IncrementReference.1.reference_.val - 1) ∧
    (s.IncrementReference.2 ++ s.IncrementReference.1.DecrementReference.2 ≠ [] ↔
      s.reference_.val = 0 ∧ s.entry_ ≠ none) := by
  have hlo := s.reference_.property.1
  have hhi := s.reference_.property.2
  refine ⟨?_, ?_, ?_, ?_⟩
  · rw [DecrementReference_fst, IncrementReference_fst]
    have h := wrapInt32_succ_pred s.reference_.val hlo hhi
    cases s with
    | mk r a b t n u g d du ds lf fo e =>
      simp only [I32.ofInt] at *
      congr 1
      exact Subtype.ext h
  · rw [IncrementReference_fst]
  · intro hlt
    rw [DecrementReference_fst, IncrementReference_fst]
    simp only [I32.ofInt]
    have h1 : wrapInt32 (s.reference_.val + 1) = s.reference_.val + 1 :=
      wrapInt32_of_range _ (by omega) (by omega)
    rw [h1]
    refine ⟨rfl, ?_⟩
    have h2 := wrapInt32_succ_pred s.reference_.val hlo hhi
    rw [h1] at h2
    rw [h2]
    omega
  · rw [DecrementReference_snd, IncrementReference_snd, IncrementReference_fst]
    have h := wrapInt32_succ_eq_one s.reference_.val hlo hhi
    cases he : s.entry_ with
    | none => simp
    | some e =>
      by_cases h0 : s.reference_.val = 0
      · simp [h0, addedPair]
      · have h1 : ¬ wrapInt32 (s.reference_.val + 1) = 1 := fun hc => h0 (h.1 hc)
        simp [h0, I32.ofInt, h1]

/-- Witness of C2: a fresh song attached to a library entry; its count 0 is
below `INT32_MAX`, the increment gives 1 and the decrement 0 again. -/
theorem increment_then_decrement_witness :
    exampleSongInLibrary.IncrementReference.1.reference_.val =
        exampleSongInLibrary.reference_.val + 1 ∧
      exampleSongInLibrary.IncrementReference.1.DecrementReference.1.reference_.val =
        exampleSongInLibrary.IncrementReference.1.reference_.val - 1 :=
  (increment_then_decrement exampleSongInLibrary).2.2.1 (by decide)

/-! ## The renderer on sequences of items -/

theorem isUnknown_eq (v : Str) : isUnknown v = !isPresent v := by
  have h : decide (v.take 7 = "Unknown".toList) = ("Unknown".toList).isPrefixOf v := by
    rw [Bool.eq_iff_iff]
    simp only [decide_eq_true_eq]
    rw [List.isPrefixOf_iff_prefix, List.prefix_iff_eq_take]
    exact eq_comm
  unfold isUnknown isPresent
  rw [h]
  cases ("Unknown".toList).isPrefixOf v <;> by_cases h1 : v = [] <;> simp [h1]

theorem specValue_of_isField (song : Song) (c : Char) (h : isField c = true) :
    specValue song c = some (fieldValue song c) := by
  unfold isField at h
  simp only [Bool.or_eq_true, decide_eq_true_eq] at h
  rcases h with ((((((h | h) | h) | h) | h) | h) | h) | h <;> subst h <;> rfl

theorem specValue_of_not_isField (song : Song) (c : Char) (h : isField c = false) :
    specValue song c = none := by
  unfold isField at h
  simp only [Bool.or_eq_false_iff, decide_eq_false_iff_not] at h
  obtain ⟨⟨⟨⟨⟨⟨⟨h1, h2⟩, h3⟩, h4⟩, h5⟩, h6⟩, h7⟩, h8⟩ := h
  simp [specValue, h1, h2, h3, h4, h5, h6, h7, h8]

theorem loopTest_of_ne (k : Str → Bool → Str → Str → Except ParseError ParseResult)
    (c : Char) (it : Str) (valid : Bool) (result formatted : Str) (h : c ≠ NUL) :
    loopTest k (c :: it) valid result formatted = k (c :: it) valid result formatted := by
  simp [loopTest, peek, h]

theorem loopTest_nil (k : Str → Bool → Str → Str → Except ParseError ParseResult)
    (valid : Bool) (result formatted : Str) :
    loopTest k [] valid result formatted = .ok ⟨result, [], valid, result⟩ := by
  simp [loopTest, peek]

/-- One item: the loop consumes its text, appends what it renders and lowers
the flag when the item does not keep it. -/
theorem loopTest_tok (song : Song) (t : Tok) (ht : t.wf = true) (post : Str) (valid : Bool)
    (result formatted : Str) (fuel : Nat) :
    loopTest (ParseStringLoop song (fuel + 1)) (t.chars ++ post) valid result formatted =
      loopTest (ParseStringLoop song fuel) post (valid && t.keeps song)
        (result ++ t.render song) formatted := by
  cases t with
  | lit c =>
    simp only [Tok.wf, Bool.and_eq_true, decide_eq_true_eq, Bool.not_eq_true'] at ht
    obtain ⟨hn, hs⟩ := ht
    unfold isSpecial at hs
    simp only [Bool.or_eq_false_iff, decide_eq_false_iff_not] at hs
    obtain ⟨⟨⟨⟨h1, h2⟩, h3⟩, h4⟩, h5⟩ := hs
    simp [Tok.chars, loopTest_of_ne _ c _ _ _ _ hn, ParseStringLoop, h1, h2, h3, h4, h5,
      whileCond, Tok.keeps, Tok.render]
  | esc c =>
    have hb : '\\' ≠ NUL := by decide
    simp [Tok.chars, loopTest_of_ne _ _ _ _ _ _ hb, ParseStringLoop, whileCond, Tok.keeps,
      Tok.render, peek]
  | spec c =>
    have hb : '%' ≠ NUL := by decide
    simp only [Tok.chars, List.cons_append, List.nil_append, loopTest_of_ne _ _ _ _ _ _ hb]
    simp only [ParseStringLoop, peek, whileCond, Tok.keeps, Tok.render]
    by_cases hp : c = '%'
    · subst hp
      simp
    · by_cases hf : isField c = true
      · rw [specValue_of_isField song c hf]
        by_cases hu : isPresent (fieldValue song c) = true
        · simp [hp, hf, isUnknown_eq, hu]
        · simp only [Bool.not_eq_true] at hu
          simp [hp, hf, isUnknown_eq, hu]
      · simp only [Bool.not_eq_true] at hf
        rw [specValue_of_not_isField song c hf]
        simp [hp, hf]

theorem Tok.length_flat_le (ts : List Tok) : ts.length ≤ (Tok.flat ts).length := by
  induction ts with
  | nil => simp [Tok.flat]
  | cons t ts ih =>
    cases t <;> simp [Tok.flat, Tok.chars] <;> omega

/-- A run of items: the loop consumes their text, appends what they render and
lowers the flag when one of them does not keep it. -/
theorem loopTest_toks (song : Song) (ts : List Tok) (hts : ∀ t ∈ ts, t.wf = true) (post : Str)
    (valid : Bool) (result formatted : Str) (fuel : Nat) :
    loopTest (ParseStringLoop song (ts.length + fuel)) (Tok.flat ts ++ post) valid result
        formatted =
      loopTest (ParseStringLoop song fuel) post (valid && Tok.keepAll song ts)
        (result ++ Tok.renderAll song ts) formatted := by
  induction ts generalizing valid result with
  | nil => simp [Tok.flat, Tok.keepAll, Tok.renderAll]
  | cons t ts ih =>
    have h1 : (t :: ts).length + fuel = (ts.length + fuel) + 1 := by
      simp only [List.length_cons]; omega
    rw [h1, Tok.flat, List.append_assoc,
      loopTest_tok song t (hts t (List.mem_cons_self t ts)),
      ih (fun u hu => hts u (List.mem_cons_of_mem t hu))]
    simp [Tok.keepAll, Tok.renderAll, Bool.and_assoc]

/-- The same with any supply of iterations that covers the text. -/
theorem loopTest_toks_fuel (song : Song) (ts : List Tok) (hts : ∀ t ∈ ts, t.wf = true) (post : Str)
    (valid : Bool) (result formatted : Str) (fuel : Nat)
    (hfuel : (Tok.flat ts ++ post).length < fuel) :
    ∃ fuel1, post.length < fuel1 ∧
      loopTest (ParseStringLoop song fuel) (Tok.flat ts ++ post) valid result formatted =
        loopTest (ParseStringLoop song fuel1) post (valid && Tok.keepAll song ts)
          (result ++ Tok.renderAll song ts) formatted := by
  have hle := Tok.length_flat_le ts
  rw [List.length_append] at hfuel
  refine ⟨fuel - ts.length, by omega, ?_⟩
  have h := loopTest_toks song ts hts post valid result formatted (fuel - ts.length)
  have e : ts.length + (fuel - ts.length) = fuel := by omega
  rw [e] at h
  exact h

theorem Tok.peek_flat_ne (ts : List Tok) (hts : ∀ t ∈ ts, t.wf = true) (c : Char) (hc : c ≠ NUL)
    (post : Str) : peek (Tok.flat ts ++ c :: post) ≠ NUL := by
  cases ts with
  | nil => simpa [Tok.flat, peek] using hc
  | cons t ts =>
    have ht := hts t (List.mem_cons_self t ts)
    cases t with
    | lit d =>
      simp only [Tok.wf, Bool.and_eq_true, decide_eq_true_eq] at ht
      simpa [Tok.flat, Tok.chars, peek] using ht.1
    | spec d => simp only [Tok.flat, Tok.chars, List.cons_append, peek]; decide
    | esc d => simp only [Tok.flat, Tok.chars, List.cons_append, peek]; decide

theorem loopTest_of_peek (k : Str → Bool → Str → Str → Except ParseError ParseResult)
    (it : Str) (valid : Bool) (result formatted : Str) (h : peek it ≠ NUL) :
    loopTest k it valid result formatted = k it valid result formatted := by
  simp [loopTest, h]

/-- The closing brace: `break` when the flag is up, `return ""` when it is down. -/
theorem ParseStringLoop_close (song : Song) (fuel : Nat) (post : Str) (valid : Bool)
    (result formatted : Str) :
    ParseStringLoop song (fuel + 1) ('\x7d' :: post) valid result formatted =
      .ok (if valid then ⟨result, '\x7d' :: post, true, result⟩
           else ⟨[], '\x7d' :: post, false, formatted⟩) := by
  cases valid <;> simp [ParseStringLoop]

/-- The bar flips the flag and nothing else. -/
theorem loopTest_bar (song : Song) (fuel : Nat) (post : Str) (valid : Bool)
    (result formatted : Str) :
    loopTest (ParseStringLoop song (fuel + 1)) ('|' :: post) valid result formatted =
      loopTest (ParseStringLoop song fuel) post (!valid) result formatted := by
  have hb : '|' ≠ NUL := by decide
  simp [loopTest_of_ne _ _ _ _ _ _ hb, ParseStringLoop, whileCond]

/-- The opening brace: the nested call starts with an empty result, and the
loop goes on behind the character the nested call stopped at. -/
theorem loopTest_open (song : Song) (fuel : Nat) (inner : Str) (valid : Bool)
    (result formatted : Str) :
    loopTest (ParseStringLoop song (fuel + 1)) ('\x7b' :: inner) valid result formatted =
      match ParseStringLoop song fuel inner valid [] formatted with
      | .error e => .error e
      | .ok r =>
        whileCond (ParseStringLoop song fuel) r.it r.valid (result ++ r.result) r.formatted := by
  have hb : '\x7b' ≠ NUL := by decide
  simp [loopTest_of_ne _ _ _ _ _ _ hb, ParseStringLoop]

/-- A run of items up to the closing brace of the group they stand in. -/
theorem loopTest_toks_close (song : Song) (ts : List Tok) (hts : ∀ t ∈ ts, t.wf = true) (post : Str)
    (valid : Bool) (result formatted : Str) (fuel : Nat)
    (hfuel : (Tok.flat ts ++ '\x7d' :: post).length < fuel) :
    loopTest (ParseStringLoop song fuel) (Tok.flat ts ++ '\x7d' :: post) valid result formatted =
      .ok (if (valid && Tok.keepAll song ts) = true then
            ⟨result ++ Tok.renderAll song ts, '\x7d' :: post, true,
              result ++ Tok.renderAll song ts⟩
           else ⟨[], '\x7d' :: post, false, formatted⟩) := by
  obtain ⟨fuel1, h1, e⟩ :=
    loopTest_toks_fuel song ts hts ('\x7d' :: post) valid result formatted fuel hfuel
  rw [e]
  obtain ⟨fuel2, rfl⟩ : ∃ fuel2, fuel1 = fuel2 + 1 := ⟨fuel1 - 1, by omega⟩
  have hb : '\x7d' ≠ NUL := by decide
  rw [loopTest_of_ne _ _ _ _ _ _ hb, ParseStringLoop_close]

/-- A whole group of items: it contributes what its items render when the flag
is up at its closing brace, and nothing when it is down; the flag is handed on
as the group leaves it. -/
theorem loopTest_group (song : Song) (ts : List Tok) (hts : ∀ t ∈ ts, t.wf = true) (post : Str)
    (valid : Bool) (result formatted : Str) (fuel : Nat)
    (hfuel : ('\x7b' :: (Tok.flat ts ++ '\x7d' :: post)).length < fuel) :
    ∃ fuel1, post.length < fuel1 ∧
      loopTest (ParseStringLoop song fuel) ('\x7b' :: (Tok.flat ts ++ '\x7d' :: post)) valid
          result formatted =
        loopTest (ParseStringLoop song fuel1) post (valid && Tok.keepAll song ts)
          (result ++ if (valid && Tok.keepAll song ts) = true then Tok.renderAll song ts else [])
          (if (valid && Tok.keepAll song ts) = true then Tok.renderAll song ts
            else formatted) := by
  obtain ⟨fuel0, rfl⟩ : ∃ fuel0, fuel = fuel0 + 1 :=
    ⟨fuel - 1, by simp only [List.length_cons] at hfuel; omega⟩
  have hlen : (Tok.flat ts ++ '\x7d' :: post).length < fuel0 := by
    simp only [List.length_cons] at hfuel; omega
  have hpost : post.length < fuel0 := by
    simp only [List.length_append, List.length_cons] at hlen; omega
  refine ⟨fuel0, hpost, ?_⟩
  have hb : '\x7d' ≠ NUL := by decide
  rw [loopTest_open,
    ← loopTest_of_peek (ParseStringLoop song fuel0) _ valid [] formatted
      (Tok.peek_flat_ne ts hts '\x7d' hb post),
    loopTest_toks_close song ts hts post valid [] formatted fuel0 hlen]
  cases (valid && Tok.keepAll song ts) <;> simp [whileCond]

theorem FormatString_miss (s : Song) (fmt : Str) (h : s.lastFormat_ ≠ fmt) :
    s.FormatString fmt =
      match ParseStringLoop s (fmt.length + 1) fmt true [] s.formatted_ with
      | .error e => .error e
      | .ok r => .ok (r.result, { s with lastFormat_ := fmt, formatted_ := r.formatted }) := by
  simp [Song.FormatString, h, ParseString]

theorem Tok.wf_of_plain (t : Tok) (h : t.plain = true) : t.wf = true := by
  cases t <;> simp_all [Tok.plain, Tok.wf]

/-- A template that is a run of items, rendered at the top level. -/
theorem FormatString_toks (s : Song) (ts : List Tok) (hne : ts ≠ [])
    (hts : ∀ t ∈ ts, t.wf = true) (hmiss : s.lastFormat_ ≠ Tok.flat ts) :
    s.FormatString (Tok.flat ts) =
      .ok (Tok.renderAll s ts,
        { s with lastFormat_ := Tok.flat ts, formatted_ := Tok.renderAll s ts }) := by
  rw [FormatString_miss s _ hmiss]
  have hpeek : peek (Tok.flat ts) ≠ NUL := by
    cases ts with
    | nil => exact absurd rfl hne
    | cons t ts =>
      have h := Tok.peek_flat_ne [t] (fun u hu => hts u (by simp_all)) 'x' (by decide)
        (Tok.flat ts)
      intro hc
      apply h
      cases t <;> simpa [Tok.flat, Tok.chars, peek] using hc
  rw [← loopTest_of_peek (ParseStringLoop s _) _ true [] s.formatted_ hpeek]
  obtain ⟨fuel1, -, e⟩ := loopTest_toks_fuel s ts hts [] true [] s.formatted_
    ((Tok.flat ts).length + 1) (by simp)
  rw [List.append_nil] at e
  rw [e, loopTest_nil]
  simp

/-- C3 (as amended): for every song whose render cache does not hold the
template and every non-empty template without NUL made only of literal
characters and two-character specifiers (no backslash, brace or bar, every `%`
followed by a character), `FormatString` returns the left-to-right
concatenation of: each literal character itself; `%` for `%%`; for `%a`, `%b`,
`%l`, `%t`, `%n`, `%f` the artist, album, duration string, title, track, URI,
and for `%A`, `%B` the artist and album after `SwapThe`, each when the value is
non-empty and does not begin with "Unknown" and nothing otherwise; nothing for
any other character after `%`. The result is also what the cache holds
afterwards. -/
theorem FormatString_plain_template (s : Song) (ts : List Tok) (hne : ts ≠ [])
    (hts : ∀ t ∈ ts, t.plain = true) (hmiss : s.lastFormat_ ≠ Tok.flat ts) :
    s.FormatString (Tok.flat ts) =
      .ok (Tok.renderAll s ts,
        { s with lastFormat_ := Tok.flat ts, formatted_ := Tok.renderAll s ts }) :=
  FormatString_toks s ts hne (fun t ht => Tok.wf_of_plain t (hts t ht)) hmiss

/-- Witness of C3: artist "Miles Davis", title "So What", template `%a - %t`. -/
theorem FormatString_plain_template_witness :
    exampleSong.FormatString "%a - %t".toList =
      .ok ("Miles Davis - So What".toList,
        { exampleSong with
          lastFormat_ := "%a - %t".toList, formatted_ := "Miles Davis - So What".toList }) :=
  FormatString_plain_template exampleSong
    [Tok.spec 'a', Tok.lit ' ', Tok.lit '-', Tok.lit ' ', Tok.spec 't']
    (by decide) (by decide) (by decide)

/-- C3 fails as stated: with artist "Beatles" the template `%A`, whose `A` is
none of `a b l t n f`, renders "Beatles" and not the empty string; and the
template of the three literal characters `a`, NUL, `b` renders "a", the loop
ending at the NUL. -/
theorem FormatString_plain_template_counterexample :
    Tok.flat [Tok.spec 'A'] = "%A".toList ∧
    Except.map Prod.fst ((Song.new.SetArtist (some "Beatles".toList)).FormatString "%A".toList) =
      .ok "Beatles".toList ∧
    Tok.renderAllLowercaseOnly (Song.new.SetArtist (some "Beatles".toList)) [Tok.spec 'A'] = [] ∧
    Tok.flat [Tok.lit 'a', Tok.lit NUL, Tok.lit 'b'] = ['a', NUL, 'b'] ∧
    Except.map Prod.fst (Song.new.FormatString ['a', NUL, 'b']) = .ok ['a'] ∧
    Tok.renderAllLowercaseOnly Song.new [Tok.lit 'a', Tok.lit NUL, Tok.lit 'b'] =
      ['a', NUL, 'b'] := by
  decide

/-- A group of items followed by a run of items, rendered at the top level. -/
theorem FormatString_group_toks (s : Song) (g ts : List Tok) (hg : ∀ t ∈ g, t.wf = true)
    (hts : ∀ t ∈ ts, t.wf = true)
    (hmiss : s.lastFormat_ ≠ '\x7b' :: (Tok.flat g ++ '\x7d' :: Tok.flat ts)) :
    s.FormatString ('\x7b' :: (Tok.flat g ++ '\x7d' :: Tok.flat ts)) =
      .ok ((if Tok.keepAll s g = true then Tok.renderAll s g else []) ++ Tok.renderAll s ts,
        { s with
          lastFormat_ := '\x7b' :: (Tok.flat g ++ '\x7d' :: Tok.flat ts)
          formatted_ :=
            (if Tok.keepAll s g = true then Tok.renderAll s g else []) ++ Tok.renderAll s ts }) := by
  rw [FormatString_miss s _ hmiss]
  rw [← loopTest_of_ne (ParseStringLoop s _) '\x7b' _ true [] s.formatted_ (by decide)]
  obtain ⟨fuel1, h1, e1⟩ := loopTest_group s g hg (Tok.flat ts) true [] s.formatted_
    (('\x7b' :: (Tok.flat g ++ '\x7d' :: Tok.flat ts)).length + 1) (by simp)
  rw [e1]
  obtain ⟨fuel2, -, e2⟩ := loopTest_toks_fuel s ts hts [] (true && Tok.keepAll s g)
    ([] ++ if (true && Tok.keepAll s g) = true then Tok.renderAll s g else [])
    (if (true && Tok.keepAll s g) = true then Tok.renderAll s g else s.formatted_) fuel1
    (by simpa using h1)
  rw [List.append_nil] at e2
  rw [e2, loopTest_nil]
  simp

/-- C4: with the render cache not holding the template and a title that is
present (non-empty, not beginning with "Unknown"), `FormatString("{%a - }%t")`
is the title alone when the artist is not present (empty, or beginning with
"Unknown" as the sentinel "Unknown Artist" does), and is the artist, `" - "` and
the title when the artist is present. -/
theorem FormatString_optional_artist (s : Song)
    (hmiss : s.lastFormat_ ≠ "\x7b%a - \x7d%t".toList) (ht : isPresent s.title_ = true) :
    isPresent [] = false ∧ isPresent UnknownArtist = false ∧
    (isPresent s.artist_ = false →
      s.FormatString "\x7b%a - \x7d%t".toList =
        .ok (s.title_,
          { s with lastFormat_ := "\x7b%a - \x7d%t".toList, formatted_ := s.title_ })) ∧
    (isPresent s.artist_ = true →
      s.FormatString "\x7b%a - \x7d%t".toList =
        .ok (s.artist_ ++ " - ".toList ++ s.title_,
          { s with
            lastFormat_ := "\x7b%a - \x7d%t".toList
            formatted_ := s.artist_ ++ " - ".toList ++ s.title_ })) := by
  have h := FormatString_group_toks s [Tok.spec 'a', Tok.lit ' ', Tok.lit '-', Tok.lit ' ']
    [Tok.spec 't'] (by decide) (by decide) hmiss
  have e : ('\x7b' :: (Tok.flat [Tok.spec 'a', Tok.lit ' ', Tok.lit '-', Tok.lit ' '] ++
      '\x7d' :: Tok.flat [Tok.spec 't'])) = "\x7b%a - \x7d%t".toList := by decide
  rw [e] at h
  refine ⟨by decide, by decide, ?_, ?_⟩
  · intro ha
    rw [h]
    simp [Tok.keepAll, Tok.keeps, Tok.renderAll, Tok.render, specValue, ha, ht]
  · intro ha
    rw [h]
    simp [Tok.keepAll, Tok.keeps, Tok.renderAll, Tok.render, specValue, ha, ht]

/-- Witness of C4: the artist set to absent, the title "So What". -/
theorem FormatString_optional_artist_witness :
    exampleSongNoArtist.FormatString "\x7b%a - \x7d%t".toList =
      .ok ("So What".toList,
        { exampleSongNoArtist with
          lastFormat_ := "\x7b%a - \x7d%t".toList, formatted_ := "So What".toList }) :=
  (FormatString_optional_artist exampleSongNoArtist (by decide) (by decide)).2.2.1 (by decide)

/-- C5 (as amended): the validity flag is not raised again when a group ends,
so an unknown field invalidates its own group and the group after it: for
every song whose cache does not hold the template and every template
`{G1}{G2}` (neither group containing an unescaped bar or a nested group) in
which `G1` references a field that is empty or unknown (or has a `%` followed
by a character that is no specifier), `FormatString` returns the empty string,
whatever `G2` references. -/
theorem FormatString_two_groups (s : Song) (g1 g2 : List Tok) (h1 : ∀ t ∈ g1, t.wf = true)
    (h2 : ∀ t ∈ g2, t.wf = true) (hunknown : Tok.keepAll s g1 = false)
    (hmiss : s.lastFormat_ ≠
      '\x7b' :: (Tok.flat g1 ++ '\x7d' :: '\x7b' :: (Tok.flat g2 ++ ['\x7d']))) :
    s.FormatString ('\x7b' :: (Tok.flat g1 ++ '\x7d' :: '\x7b' :: (Tok.flat g2 ++ ['\x7d']))) =
      .ok ([],
        { s with
          lastFormat_ := '\x7b' :: (Tok.flat g1 ++ '\x7d' :: '\x7b' :: (Tok.flat g2 ++ ['\x7d']))
          formatted_ := [] }) := by
  rw [FormatString_miss s _ hmiss]
  rw [← loopTest_of_ne (ParseStringLoop s _) '\x7b' _ true [] s.formatted_ (by decide)]
  obtain ⟨fuel1, hf1, e1⟩ := loopTest_group s g1 h1 ('\x7b' :: (Tok.flat g2 ++ ['\x7d'])) true []
    s.formatted_ _ (Nat.lt_succ_self _)
  rw [e1]
  obtain ⟨fuel2, -, e2⟩ := loopTest_group s g2 h2 [] (true && Tok.keepAll s g1)
    ([] ++ if (true && Tok.keepAll s g1) = true then Tok.renderAll s g1 else [])
    (if (true && Tok.keepAll s g1) = true then Tok.renderAll s g1 else s.formatted_) fuel1 hf1
  rw [e2, loopTest_nil]
  simp [hunknown]

/-- Witness of C5: artist absent, title "So What", template `{%a}{%t}`. -/
theorem FormatString_two_groups_witness :
    exampleSongNoArtist.FormatString "\x7b%a\x7d\x7b%t\x7d".toList =
      .ok ([],
        { exampleSongNoArtist with
          lastFormat_ := "\x7b%a\x7d\x7b%t\x7d".toList, formatted_ := [] }) :=
  FormatString_two_groups exampleSongNoArtist [Tok.spec 'a'] [Tok.spec 't'] (by decide)
    (by decide) (by decide) (by decide)

/-- C5 fails as stated: with the artist absent and the title "So What", the
second group of `{%a}{%t}` references a present field only and would render
"So What", yet `FormatString` returns the empty string. -/
theorem FormatString_two_groups_counterexample :
    Tok.keepAll exampleSongNoArtist [Tok.spec 'a'] = false ∧
    Tok.keepAll exampleSongNoArtist [Tok.spec 't'] = true ∧
    Tok.renderAll exampleSongNoArtist [Tok.spec 't'] = "So What".toList ∧
    Except.map Prod.fst (exampleSongNoArtist.FormatString "\x7b%a\x7d\x7b%t\x7d".toList) =
      .ok [] := by
  decide

/-- C6 (as amended): inside a group a bar flips the validity flag and discards
nothing. For every song whose cache does not hold the template and every
top-level group `{A|B}` (`A`, `B` without nested group or further unescaped
bar), calling a part valid when every `%` in it is followed by `%` or by a field
specifier whose value is present: if `A` is valid, the group renders as the
empty string; if `A` is not valid, it renders as what `A` contributed (its
literals and present fields) followed by the rendering of `B` when `B` is
valid, and as the empty string otherwise. -/
theorem FormatString_bar_group (s : Song) (a b : List Tok) (ha : ∀ t ∈ a, t.wf = true)
    (hb : ∀ t ∈ b, t.wf = true)
    (hmiss : s.lastFormat_ ≠ '\x7b' :: (Tok.flat a ++ '|' :: (Tok.flat b ++ ['\x7d']))) :
    s.FormatString ('\x7b' :: (Tok.flat a ++ '|' :: (Tok.flat b ++ ['\x7d']))) =
      .ok (if Tok.keepAll s a = true then []
           else if Tok.keepAll s b = true then Tok.renderAll s a ++ Tok.renderAll s b else [],
        { s with
          lastFormat_ := '\x7b' :: (Tok.flat a ++ '|' :: (Tok.flat b ++ ['\x7d']))
          formatted_ :=
            if Tok.keepAll s a = true then []
            else if Tok.keepAll s b = true then Tok.renderAll s a ++ Tok.renderAll s b
            else [] }) := by
  rw [FormatString_miss s _ hmiss]
  rw [← loopTest_of_ne (ParseStringLoop s _) '\x7b' _ true [] s.formatted_ (by decide)]
  simp only [List.length_cons, List.length_append, List.length_nil]
  rw [loopTest_open,
    ← loopTest_of_peek (ParseStringLoop s _) _ true [] s.formatted_
      (Tok.peek_flat_ne a ha '|' (by decide) _)]
  obtain ⟨fuel1, hf1, e1⟩ := loopTest_toks_fuel s a ha ('|' :: (Tok.flat b ++ ['\x7d'])) true []
    s.formatted_ ((Tok.flat a).length + ((Tok.flat b).length + (0 + 1) + 1) + 1)
    (by simp only [List.length_cons, List.length_append, List.length_nil]; omega)
  rw [e1]
  obtain ⟨fuel2, rfl⟩ : ∃ fuel2, fuel1 = fuel2 + 1 := ⟨fuel1 - 1, by omega⟩
  rw [loopTest_bar,
    loopTest_toks_close s b hb [] _ _ _ fuel2 (by simp only [List.length_cons] at hf1; omega)]
  cases Tok.keepAll s a <;> cases Tok.keepAll s b <;> simp [whileCond, loopTest_nil]

/-- Witness of C6: artist "Miles Davis", template `{%a|x}`. -/
theorem FormatString_bar_group_witness :
    exampleSong.FormatString "\x7b%a|x\x7d".toList =
      .ok ([], { exampleSong with lastFormat_ := "\x7b%a|x\x7d".toList, formatted_ := [] }) :=
  FormatString_bar_group exampleSong [Tok.spec 'a'] [Tok.lit 'x'] (by decide) (by decide)
    (by decide)

/-- C6 fails as stated: with the artist present, `{%a|x}` renders as the empty
string and not as "Miles Davis"; with the artist absent, `{%a - |none}` renders
as " - none" and not as "none". -/
theorem FormatString_bar_group_counterexample :
    Tok.keepAll exampleSong [Tok.spec 'a'] = true ∧
    Tok.renderAll exampleSong [Tok.spec 'a'] = "Miles Davis".toList ∧
    Except.map Prod.fst (exampleSong.FormatString "\x7b%a|x\x7d".toList) = .ok [] ∧
    Tok.keepAll exampleSongNoArtist [Tok.spec 'a', Tok.lit ' ', Tok.lit '-', Tok.lit ' '] =
      false ∧
    Tok.renderAll exampleSongNoArtist
      [Tok.lit 'n', Tok.lit 'o', Tok.lit 'n', Tok.lit 'e'] = "none".toList ∧
    Except.map Prod.fst (exampleSongNoArtist.FormatString "\x7b%a - |none\x7d".toList) =
      .ok " - none".toList := by
  decide

/-! ## The sort-key helper -/

theorem skipSpaces_eq_dropWhile (s : Str) : skipSpaces s = s.dropWhile isSpace := by
  induction s with
  | nil => rfl
  | cons c cs ih =>
    by_cases h : isSpace c = true
    · simp [skipSpaces, List.dropWhile, h, ih]
    · simp [skipSpaces, List.dropWhile, h]

theorem skipSpaces_append (ws rest : Str) (h : ∀ c ∈ ws, isSpace c = true) :
    skipSpaces (ws ++ rest) = skipSpaces rest := by
  induction ws with
  | nil => rfl
  | cons c cs ih =>
    have hc : isSpace c = true := h c (List.mem_cons_self c cs)
    simp only [List.cons_append, skipSpaces, hc, if_true]
    exact ih (fun d hd => h d (List.mem_cons_of_mem c hd))

theorem skipSpaces_of_head (rest : Str) (h : ∀ c ∈ rest.head?, isSpace c = false) :
    skipSpaces rest = rest := by
  cases rest with
  | nil => rfl
  | cons c cs =>
    have hc : isSpace c = false := h c (by simp)
    simp [skipSpaces, hc]

theorem isTheWord_iff (w : Str) :
    isTheWord w = true ↔
      ∃ t h e, w = [t, h, e] ∧ (t = 't' ∨ t = 'T') ∧ (h = 'h' ∨ h = 'H') ∧ (e = 'e' ∨ e = 'E') := by
  constructor
  · intro hw
    match w, hw with
    | [t, h, e], hw =>
      simp only [isTheWord, Bool.and_eq_true, Bool.or_eq_true, decide_eq_true_eq] at hw
      exact ⟨t, h, e, rfl, hw.1.1, hw.1.2, hw.2⟩
  · rintro ⟨t, h, e, rfl, ht, hh, he⟩
    simp only [isTheWord, Bool.and_eq_true, Bool.or_eq_true, decide_eq_true_eq]
    exact ⟨⟨ht, hh⟩, he⟩

theorem matchThe_of_shape (ws1 w ws2 r : Str) (h1 : ∀ c ∈ ws1, isSpace c = true)
    (hw : isTheWord w = true) (hne : ws2 ≠ []) (h2 : ∀ c ∈ ws2, isSpace c = true)
    (hr : ∀ c ∈ r.head?, isSpace c = false) :
    matchThe (ws1 ++ w ++ ws2 ++ r) = some r := by
  obtain ⟨t, h, e, rfl, ht, hh, he⟩ := (isTheWord_iff w).1 hw
  have hts : isSpace t = false := by rcases ht with rfl | rfl <;> decide
  cases ws2 with
  | nil => exact absurd rfl hne
  | cons c cs =>
    have hc : isSpace c = true := h2 c (List.mem_cons_self c cs)
    have hcs : ∀ d ∈ cs, isSpace d = true := fun d hd => h2 d (List.mem_cons_of_mem c hd)
    have e0 : ws1 ++ [t, h, e] ++ (c :: cs) ++ r = ws1 ++ (t :: h :: e :: c :: (cs ++ r)) := by
      simp
    have e1 : skipSpaces (t :: h :: e :: c :: (cs ++ r)) = t :: h :: e :: c :: (cs ++ r) := by
      simp [skipSpaces, hts]
    rw [e0]
    unfold matchThe
    rw [skipSpaces_append _ _ h1, e1]
    simp [matchClass, ht, hh, he, matchSpaces1, hc, skipSpaces_append _ _ hcs,
      skipSpaces_of_head _ hr]

theorem matchClass_eq_some (lo up : Char) (s rest : Str) (h : matchClass lo up s = some rest) :
    ∃ c, s = c :: rest ∧ (c = lo ∨ c = up) := by
  cases s with
  | nil => simp [matchClass] at h
  | cons c cs =>
    by_cases hc : c = lo ∨ c = up
    · simp only [matchClass, hc, if_true, Option.some.injEq] at h
      exact ⟨c, by rw [h], hc⟩
    · simp [matchClass, hc] at h

theorem matchThe_eq_some (s rest : Str) (h : matchThe s = some rest) : HasLeadingThe s := by
  unfold matchThe at h
  simp only [Option.bind_eq_bind, Option.bind_eq_some] at h
  obtain ⟨s1, hs1, s2, hs2, s3, hs3, hs4⟩ := h
  obtain ⟨t, e1, ht⟩ := matchClass_eq_some _ _ _ _ hs1
  obtain ⟨h, e2, hh⟩ := matchClass_eq_some _ _ _ _ hs2
  obtain ⟨e, e3, he⟩ := matchClass_eq_some _ _ _ _ hs3
  cases s3 with
  | nil => simp [matchSpaces1] at hs4
  | cons c cs =>
    by_cases hc : isSpace c = true
    · simp only [matchSpaces1, hc, if_true, Option.some.injEq] at hs4
      refine ⟨s.takeWhile isSpace, [t, h, e], c :: cs.takeWhile isSpace, rest, ?_, ?_, ?_, ?_, ?_⟩
      · have hs : s = s.takeWhile isSpace ++ skipSpaces s := by
          rw [skipSpaces_eq_dropWhile, List.takeWhile_append_dropWhile]
        have hcs : cs = cs.takeWhile isSpace ++ rest := by
          rw [← hs4, skipSpaces_eq_dropWhile, List.takeWhile_append_dropWhile]
        rw [e1, e2, e3] at hs
        calc s = s.takeWhile isSpace ++ t :: h :: e :: c :: cs := hs
          _ = s.takeWhile isSpace ++ t :: h :: e :: c :: (cs.takeWhile isSpace ++ rest) := by
            rw [← hcs]
          _ = _ := by simp
      · intro d hd
        exact List.mem_takeWhile_imp hd
      · exact (isTheWord_iff _).2 ⟨t, h, e, rfl, ht, hh, he⟩
      · simp
      · intro d hd
        rcases List.mem_cons.1 hd with rfl | hd
        · exact hc
        · exact List.mem_takeWhile_imp hd
    · simp [matchSpaces1, hc] at hs4

/-- C7: `SwapThe` is this pure transform of a string `s`. When `s` is zero or
more whitespace characters, then "the" in any letter case, then one or more
whitespace characters, then a remainder `r` (which, all of the whitespace
being taken, does not begin with whitespace), the result is `r ++ ", The"`.
When `s` is not of this shape, the result is `s`. So "The Beatles" gives
"Beatles, The", "Beatles" and "Theatre" are unchanged, and the template `%A`
renders the artist "The Beatles" as "Beatles, The". -/
theorem SwapThe_spec (s : Str) :
    (∀ ws1 w ws2 r, s = ws1 ++ w ++ ws2 ++ r → (∀ c ∈ ws1, isSpace c = true) →
      isTheWord w = true → ws2 ≠ [] → (∀ c ∈ ws2, isSpace c = true) →
      (∀ c ∈ r.head?, isSpace c = false) → SwapThe s = r ++ ", The".toList) ∧
    (¬ HasLeadingThe s → SwapThe s = s) ∧
    SwapThe "The Beatles".toList = "Beatles, The".toList ∧
    SwapThe "Beatles".toList = "Beatles".toList ∧
    SwapThe "Theatre".toList = "Theatre".toList ∧
    Except.map Prod.fst
      ((Song.new.SetArtist (some "The Beatles".toList)).FormatString "%A".toList) =
        .ok "Beatles, The".toList := by
  refine ⟨?_, ?_, by decide, by decide, by decide, by decide⟩
  · intro ws1 w ws2 r hs h1 hw hne h2 hr
    subst hs
    unfold SwapThe
    rw [matchThe_of_shape ws1 w ws2 r h1 hw hne h2 hr]
  · intro hno
    unfold SwapThe
    cases h : matchThe s with
    | none => rfl
    | some rest => exact absurd (matchThe_eq_some s rest h) hno

/-- Witness of C7: leading whitespace, the article in lower case, two spaces. -/
theorem SwapThe_spec_witness : SwapThe " the  Who".toList = "Who, The".toList :=
  (SwapThe_spec " the  Who".toList).1 " ".toList "the".toList "  ".toList "Who".toList rfl
    (by decide) (by decide) (by decide) (by decide) (by decide)

/-! ## Escapes -/

/-- C8: for every song and every character `c` (NUL or not), with the cache
not holding the template, the two-character template backslash-`c` renders as
the one-character string `c`; `ParseString` consumes it whole and leaves the
validity flag as it found it; inside a group the escaped character neither
opens nor closes a group nor flips the flag (`{\c}` renders as `c`); and the
template `%%` renders as `%`. -/
theorem FormatString_escape (s : Song) (c : Char)
    (h1 : s.lastFormat_ ≠ ['\\', c]) (h2 : s.lastFormat_ ≠ ['\x7b', '\\', c, '\x7d'])
    (h3 : s.lastFormat_ ≠ "%%".toList) :
    s.FormatString ['\\', c] = .ok ([c], { s with lastFormat_ := ['\\', c], formatted_ := [c] }) ∧
    (∀ valid formatted,
      ParseString s 3 ['\\', c] valid formatted = .ok ⟨[c], [], valid, [c]⟩) ∧
    s.FormatString ['\x7b', '\\', c, '\x7d'] =
      .ok ([c], { s with lastFormat_ := ['\x7b', '\\', c, '\x7d'], formatted_ := [c] }) ∧
    s.FormatString "%%".toList =
      .ok ("%".toList, { s with lastFormat_ := "%%".toList, formatted_ := "%".toList }) := by
  refine ⟨?_, ?_, ?_, ?_⟩
  · simp [Song.FormatString, h1, ParseString, ParseStringLoop, whileCond, loopTest, peek]
  · intro valid formatted
    simp [ParseString, ParseStringLoop, whileCond, loopTest, peek]
  · have h := FormatString_group_toks s [Tok.esc c] [] (by simp [Tok.wf]) (by simp) h2
    simpa [Tok.flat, Tok.chars, Tok.keepAll, Tok.keeps, Tok.renderAll, Tok.render] using h
  · have e : "%%".toList = ['%', '%'] := rfl
    rw [e] at h3 ⊢
    simp [Song.FormatString, h3, ParseString, ParseStringLoop, whileCond, loopTest, peek]

/-- Witness of C8: a fresh song and the escaped opening brace. -/
theorem FormatString_escape_witness :
    Song.new.FormatString ['\\', '\x7b'] =
      .ok (['\x7b'], { Song.new with lastFormat_ := ['\\', '\x7b'], formatted_ := ['\x7b'] }) :=
  (FormatString_escape Song.new '\x7b' (by decide) (by decide) (by decide)).1

/-! ## The render cache -/

/-- C9, the code at the failing input: a fresh song that rendered "old" is
asked twice for the template `|}`. The first call parses; the parse ends at the
closing brace with the flag down, returns the empty string and stores nothing.
The second call finds the template in the cache and returns "old". -/
theorem FormatString_twice_stale :
    Song.new.FormatString "old".toList = .ok ("old".toList, exampleSongRenderedOld) ∧
    exampleSongRenderedOld.FormatString "|\x7d".toList =
      .ok ([], { exampleSongRenderedOld with lastFormat_ := "|\x7d".toList }) ∧
    Song.FormatString { exampleSongRenderedOld with lastFormat_ := "|\x7d".toList }
        "|\x7d".toList =
      .ok ("old".toList, { exampleSongRenderedOld with lastFormat_ := "|\x7d".toList }) := by
  decide

/-- A second call with the same template returns the first call's string
whenever the first call left that string in `formatted_`. -/
theorem FormatString_twice_of_stored (s s1 : Song) (fmt x : Str)
    (h : s.FormatString fmt = .ok (x, s1)) (hstored : s1.formatted_ = x) :
    s1.FormatString fmt = .ok (x, s1) := by
  have hl : s1.lastFormat_ = fmt := by
    unfold Song.FormatString at h
    by_cases hc : s.lastFormat_ = fmt
    · simp only [hc, if_true, Except.ok.injEq, Prod.mk.injEq] at h
      rw [← h.2, hc]
    · simp only [hc, if_false] at h
      cases e : ParseString s (fmt.length + 1) fmt true s.formatted_ with
      | error y => simp [e] at h
      | ok r =>
        simp only [e, Except.ok.injEq, Prod.mk.injEq] at h
        rw [← h.2]
  simp [Song.FormatString, hl, hstored]

/-- C10, the code at the failing input: two fresh songs, equal in every
attribute, rendered "x" and "y". `SetArtist("z")` on both sets `lastFormat_` to
the empty string, which the empty template then matches: `FormatString("")`
returns "x" on the one and "y" on the other. -/
theorem FormatString_empty_after_SetArtist :
    Song.new.FormatString "x".toList = .ok ("x".toList, exampleSongRenderedX) ∧
    Song.new.FormatString "y".toList = .ok ("y".toList, exampleSongRenderedY) ∧
    Except.map Prod.fst ((exampleSongRenderedX.SetArtist (some "z".toList)).FormatString []) =
      .ok "x".toList ∧
    Except.map Prod.fst ((exampleSongRenderedY.SetArtist (some "z".toList)).FormatString []) =
      .ok "y".toList := by
  decide

/-! ## What a render depends on -/

theorem fieldValue_congr (s t : Song) (h : s.sameFields t) (d : Char) :
    fieldValue s d = fieldValue t d := by
  obtain ⟨h1, h2, h3, h4, h5, h6⟩ := h
  simp [fieldValue, songInfo, Song.Artist, Song.Album, Song.Title, Song.Track, Song.URI,
    Song.DurationString, h1, h2, h3, h4, h5, h6]

theorem whileCond_congr (k k1 : Str → Bool → Str → Str → Except ParseError ParseResult)
    (hk : ∀ it valid result fm fm1,
      (k it valid result fm).map ParseResult.view = (k1 it valid result fm1).map ParseResult.view)
    (it : Str) (valid : Bool) (result fm fm1 : Str) :
    (whileCond k it valid result fm).map ParseResult.view =
      (whileCond k1 it valid result fm1).map ParseResult.view := by
  cases it with
  | nil => rfl
  | cons c it1 =>
    simp only [whileCond, loopTest]
    by_cases h : peek it1 = NUL
    · simp [h, Except.map, ParseResult.view]
    · simp only [h, if_false]
      exact hk _ _ _ _ _

/-- The string, iterator and flag a parse returns are determined by the
template and the six members the renderer reads; the cache members have no
part in them. -/
theorem ParseStringLoop_congr (s t : Song) (h : s.sameFields t) (fuel : Nat) :
    ∀ it valid result fm fm1,
      (ParseStringLoop s fuel it valid result fm).map ParseResult.view =
        (ParseStringLoop t fuel it valid result fm1).map ParseResult.view := by
  induction fuel with
  | zero =>
    intro it valid result fm fm1
    rfl
  | succ n ih =>
    intro it valid result fm fm1
    cases it with
    | nil => rfl
    | cons c it1 =>
      simp only [ParseStringLoop, fieldValue_congr s t h]
      by_cases h1 : c = '\\'
      · simp only [h1, if_true]
        exact whileCond_congr _ _ ih _ _ _ _ _
      simp only [h1, if_false]
      by_cases h2 : c = '\x7b'
      · simp only [h2, if_true]
        have hn := ih it1 valid [] fm fm1
        cases e1 : ParseStringLoop s n it1 valid [] fm with
        | error x =>
          cases e2 : ParseStringLoop t n it1 valid [] fm1 with
          | error y =>
            rw [e1, e2] at hn
            simp only [Except.map, Except.error.injEq] at hn
            simp [Except.map, hn]
          | ok r2 =>
            rw [e1, e2] at hn
            simp [Except.map] at hn
        | ok r1 =>
          cases e2 : ParseStringLoop t n it1 valid [] fm1 with
          | error y =>
            rw [e1, e2] at hn
            simp [Except.map] at hn
          | ok r2 =>
            rw [e1, e2] at hn
            simp only [Except.map, Except.ok.injEq, ParseResult.view, Prod.mk.injEq] at hn
            obtain ⟨hr, hi, hv⟩ := hn
            simp only [hr, hi, hv]
            exact whileCond_congr _ _ ih _ _ _ _ _
      simp only [h2, if_false]
      by_cases h3 : c = '\x7d'
      · cases valid <;> simp [h3, Except.map, ParseResult.view]
      simp only [h3, if_false]
      by_cases h4 : c = '|'
      · simp only [h4, if_true]
        exact whileCond_congr _ _ ih _ _ _ _ _
      simp only [h4, if_false]
      by_cases h5 : c = '%'
      · simp only [h5, if_true]
        by_cases h6 : peek it1 = '%'
        · simp only [h6, if_true]
          exact whileCond_congr _ _ ih _ _ _ _ _
        simp only [h6, if_false]
        by_cases h7 : isField (peek it1) = true
        · simp only [h7, if_true]
          by_cases h8 : isUnknown (fieldValue t (peek it1)) = true
          · simp only [h8, if_true]
            exact whileCond_congr _ _ ih _ _ _ _ _
          · simp only [h8]
            exact whileCond_congr _ _ ih _ _ _ _ _
        · simp only [h7]
          exact whileCond_congr _ _ ih _ _ _ _ _
      simp only [h5, if_false]
      exact whileCond_congr _ _ ih _ _ _ _ _

/-- Two songs that agree on the members the renderer reads and whose caches do
not hold the template render it alike. -/
theorem FormatString_congr (s t : Song) (h : s.sameFields t) (fmt : Str)
    (hs : s.lastFormat_ ≠ fmt) (ht : t.lastFormat_ ≠ fmt) :
    Except.map Prod.fst (s.FormatString fmt) = Except.map Prod.fst (t.FormatString fmt) := by
  rw [FormatString_miss s fmt hs, FormatString_miss t fmt ht]
  have hn := ParseStringLoop_congr s t h (fmt.length + 1) fmt true [] s.formatted_ t.formatted_
  cases e1 : ParseStringLoop s (fmt.length + 1) fmt true [] s.formatted_ with
  | error x =>
    cases e2 : ParseStringLoop t (fmt.length + 1) fmt true [] t.formatted_ with
    | error y =>
      rw [e1, e2] at hn
      simp only [Except.map, Except.error.injEq] at hn
      simp [Except.map, hn]
    | ok r2 =>
      rw [e1, e2] at hn
      simp [Except.map] at hn
  | ok r1 =>
    cases e2 : ParseStringLoop t (fmt.length + 1) fmt true [] t.formatted_ with
    | error y =>
      rw [e1, e2] at hn
      simp [Except.map] at hn
    | ok r2 =>
      rw [e1, e2] at hn
      simp only [Except.map, Except.ok.injEq, ParseResult.view, Prod.mk.injEq] at hn
      simp [Except.map, hn.1]

/-- After the same call of a setter that clears `lastFormat_`, two songs that
agreed on the members the renderer reads render every non-empty template
alike, whatever their caches held. -/
theorem FormatString_after_setter (s t : Song) (h : s.sameFields t) (fmt : Str)
    (hfmt : fmt ≠ []) :
    (∀ a, Except.map Prod.fst ((s.SetArtist a).FormatString fmt) =
      Except.map Prod.fst ((t.SetArtist a).FormatString fmt)) ∧
    (∀ a, Except.map Prod.fst ((s.SetAlbum a).FormatString fmt) =
      Except.map Prod.fst ((t.SetAlbum a).FormatString fmt)) ∧
    (∀ a, Except.map Prod.fst ((s.SetTitle a).FormatString fmt) =
      Except.map Prod.fst ((t.SetTitle a).FormatString fmt)) ∧
    (∀ a, Except.map Prod.fst ((s.SetTrack a).FormatString fmt) =
      Except.map Prod.fst ((t.SetTrack a).FormatString fmt)) ∧
    (∀ a, Except.map Prod.fst ((s.SetURI a).FormatString fmt) =
      Except.map Prod.fst ((t.SetURI a).FormatString fmt)) ∧
    (∀ d, Except.map Prod.fst ((s.SetDuration d).FormatString fmt) =
      Except.map Prod.fst ((t.SetDuration d).FormatString fmt)) := by
  obtain ⟨h1, h2, h3, h4, h5, h6⟩ := h
  have hne : ([] : Str) ≠ fmt := fun hc => hfmt hc.symm
  refine ⟨?_, ?_, ?_, ?_, ?_, ?_⟩
  · intro a
    apply FormatString_congr
    · cases a <;> exact ⟨by simp [Song.SetArtist], h2, h3, h4, h5, h6⟩
    · cases a <;> exact hne
    · cases a <;> exact hne
  · intro a
    apply FormatString_congr
    · cases a <;> exact ⟨h1, by simp [Song.SetAlbum], h3, h4, h5, h6⟩
    · cases a <;> exact hne
    · cases a <;> exact hne
  · intro a
    apply FormatString_congr
    · cases a <;> exact ⟨h1, h2, by simp [Song.SetTitle], h4, h5, h6⟩
    · cases a <;> exact hne
    · cases a <;> exact hne
  · intro a
    apply FormatString_congr
    · cases a
      · exact ⟨h1, h2, h3, h4, h5, h6⟩
      · exact ⟨h1, h2, h3, by simp [Song.SetTrack], h5, h6⟩
    · cases a <;> exact hne
    · cases a <;> exact hne
  · intro a
    apply FormatString_congr
    · cases a <;> exact ⟨h1, h2, h3, h4, by simp [Song.SetURI], h6⟩
    · cases a <;> exact hne
    · cases a <;> exact hne
  · intro d
    apply FormatString_congr
    · exact ⟨h1, h2, h3, h4, h5, by simp [Song.SetDuration]⟩
    · exact hne
    · exact hne

/-! ## The attribute store -/

/-- Two songs that agree on the members the renderer reads and on both cache
members render every template alike. -/
theorem FormatString_congr_cache (s t : Song) (h : s.sameFields t)
    (hl : s.lastFormat_ = t.lastFormat_) (hf : s.formatted_ = t.formatted_) (fmt : Str) :
    Except.map Prod.fst (s.FormatString fmt) = Except.map Prod.fst (t.FormatString fmt) := by
  by_cases hc : t.lastFormat_ = fmt
  · simp [Song.FormatString, hl, hc, hf, Except.map]
  · exact FormatString_congr s t h fmt (by rw [hl]; exact hc) hc

/-- C11: for every song, template and genre or date argument (a string or
absent), `SetGenre` and `SetDate` leave the cached template and the cached
result as they were, and `FormatString` afterwards returns exactly what it
would have returned without the call (a string, or the same failure). -/
theorem SetGenre_SetDate_render (s : Song) (fmt : Str) (genre date : Option Str) :
    (s.SetGenre genre).lastFormat_ = s.lastFormat_ ∧
    (s.SetGenre genre).formatted_ = s.formatted_ ∧
    (s.SetDate date).lastFormat_ = s.lastFormat_ ∧
    (s.SetDate date).formatted_ = s.formatted_ ∧
    Except.map Prod.fst ((s.SetGenre genre).FormatString fmt) =
      Except.map Prod.fst (s.FormatString fmt) ∧
    Except.map Prod.fst ((s.SetDate date).FormatString fmt) =
      Except.map Prod.fst (s.FormatString fmt) := by
  have hg : (s.SetGenre genre).sameFields s := by
    cases genre <;> exact ⟨rfl, rfl, rfl, rfl, rfl, rfl⟩
  have hd : (s.SetDate date).sameFields s := by
    cases date <;> exact ⟨rfl, rfl, rfl, rfl, rfl, rfl⟩
  have g1 : (s.SetGenre genre).lastFormat_ = s.lastFormat_ := by cases genre <;> rfl
  have g2 : (s.SetGenre genre).formatted_ = s.formatted_ := by cases genre <;> rfl
  have d1 : (s.SetDate date).lastFormat_ = s.lastFormat_ := by cases date <;> rfl
  have d2 : (s.SetDate date).formatted_ = s.formatted_ := by cases date <;> rfl
  exact ⟨g1, g2, d1, d2, FormatString_congr_cache _ _ hg g1 g2 fmt,
    FormatString_congr_cache _ _ hd d1 d2 fmt⟩

/-- C12: for artist, album, title, URI, genre and date and every song, the
getter returns `x` after the setter was called with the string `x`, and
returns the sentinel of the kind ("Unknown Artist", "Unknown Album", "Unknown",
"Unknown", "Unknown", "Unknown") after the setter was called with the absent
marker. The setters are total: none fails. -/
theorem setter_then_getter (s : Song) (x : Str) :
    (s.SetArtist (some x)).Artist = x ∧
    (s.SetAlbum (some x)).Album = x ∧
    (s.SetTitle (some x)).Title = x ∧
    (s.SetURI (some x)).URI = x ∧
    (s.SetGenre (some x)).Genre = x ∧
    (s.SetDate (some x)).Date = x ∧
    (s.SetArtist none).Artist = "Unknown Artist".toList ∧
    (s.SetAlbum none).Album = "Unknown Album".toList ∧
    (s.SetTitle none).Title = "Unknown".toList ∧
    (s.SetURI none).URI = "Unknown".toList ∧
    (s.SetGenre none).Genre = "Unknown".toList ∧
    (s.SetDate none).Date = "Unknown".toList :=
  ⟨rfl, rfl, rfl, rfl, rfl, rfl, rfl, rfl, rfl, rfl, rfl, rfl⟩

/-- C13 (as amended): a default-constructed song holds the empty string in
every attribute: `Artist()`, `Album()`, `Title()`, `Track()`, `URI()`, `Genre()`
and `Date()` return `""`, and so does `DurationString()`, with `Duration()` 0;
its reference count is 0 and it has no back-reference. So every attribute
getter of a fresh song returns the empty string, which is not the sentinel of
its kind. -/
theorem new_song_is_empty :
    Song.new.Artist = [] ∧ Song.new.Album = [] ∧ Song.new.Title = [] ∧ Song.new.Track = [] ∧
    Song.new.URI = [] ∧ Song.new.Genre = [] ∧ Song.new.Date = [] ∧
    Song.new.DurationString = [] ∧ Song.new.Duration.val = 0 ∧
    Song.new.Reference.val = 0 ∧ Song.new.Entry = none ∧
    ([] : Str) ≠ UnknownArtist ∧ ([] : Str) ≠ UnknownAlbum ∧ ([] : Str) ≠ UnknownTitle ∧
    ([] : Str) ≠ UnknownURI ∧ ([] : Str) ≠ UnknownGenre ∧ ([] : Str) ≠ UnknownDate := by
  decide

/-- C13 fails as stated: the getters of a default-constructed song return the
empty string, which is neither a value set before nor the sentinel. -/
theorem new_song_counterexample :
    Song.new.Artist ≠ "Unknown Artist".toList ∧ Song.new.Album ≠ "Unknown Album".toList ∧
    Song.new.Title ≠ "Unknown".toList ∧ Song.new.URI ≠ "Unknown".toList ∧
    Song.new.Genre ≠ "Unknown".toList ∧ Song.new.Date ≠ "Unknown".toList := by
  decide

/-- C14, the code at the failing input: a song whose track is "7" still has the
track "7" after `SetTrack` with the absent marker, the assignment of line 194
having gone to the parameter; only the cached template was cleared. -/
theorem SetTrack_absent_keeps_track :
    exampleSongTrack7.Track = "7".toList ∧
    (exampleSongTrack7.SetTrack none).Track = "7".toList ∧
    (exampleSongTrack7.SetTrack none).Track ≠ [] := by
  decide

/-! ## The duration string -/

theorem digitChar_toNat (d : Nat) (h : d < 10) : (digitChar d).toNat = 48 + d := by
  interval_cases d <;> rfl

theorem isDecDigit_digitChar (d : Nat) (h : d < 10) : isDecDigit (digitChar d) = true := by
  interval_cases d <;> rfl

theorem digitChar_ne_space (d : Nat) (h : d < 10) : digitChar d ≠ ' ' := by
  interval_cases d <;> decide

theorem decValue_append_single (s : Str) (c : Char) :
    decValue (s ++ [c]) = 10 * decValue s + (c.toNat - 48) := by
  simp [decValue, List.foldl_append]

/-- The digits `decDigits` produces: at least one, decimal digits only, no
leading zero except for the number 0, and they stand for the number. -/
theorem decDigits_spec (fuel : Nat) :
    ∀ n, n < fuel →
      decDigits fuel n ≠ [] ∧ (∀ c ∈ decDigits fuel n, isDecDigit c = true) ∧
        decValue (decDigits fuel n) = n ∧
        (n ≠ 0 → (decDigits fuel n).head? ≠ some '0') := by
  induction fuel with
  | zero => intro n h; omega
  | succ f ih =>
    intro n h
    by_cases h10 : n < 10
    · simp only [decDigits, h10, if_true]
      refine ⟨by simp, ?_, ?_, ?_⟩
      · intro c hc
        rw [List.mem_singleton.1 hc]
        exact isDecDigit_digitChar n h10
      · simp [decValue, digitChar_toNat n h10]
      · intro hn
        interval_cases n <;> first | exact absurd rfl hn | decide
    · simp only [decDigits, h10, if_false]
      obtain ⟨h1, h2, h3, h4⟩ := ih (n / 10) (by omega)
      refine ⟨by simp, ?_, ?_, ?_⟩
      · intro c hc
        rcases List.mem_append.1 hc with hc | hc
        · exact h2 c hc
        · rw [List.mem_singleton.1 hc]
          exact isDecDigit_digitChar _ (by omega)
      · rw [decValue_append_single, h3, digitChar_toNat _ (by omega)]
        omega
      · intro _
        have h5 := h4 (by omega)
        cases hd : decDigits f (n / 10) with
        | nil => exact absurd hd h1
        | cons a as =>
          rw [hd] at h5
          simpa using h5

theorem decDigits_length (fuel : Nat) :
    ∀ n k, n < fuel → n < 10 ^ (k + 1) → (decDigits fuel n).length ≤ k + 1 := by
  induction fuel with
  | zero => intro n k h; omega
  | succ f ih =>
    intro n k h hk
    by_cases h10 : n < 10
    · simp [decDigits, h10]
    · simp only [decDigits, h10, if_false, List.length_append, List.length_singleton]
      cases k with
      | zero => simp at hk; omega
      | succ k =>
        have hk1 : n / 10 < 10 ^ (k + 1) := by
          rw [Nat.div_lt_iff_lt_mul (by decide)]
          calc n < 10 ^ (k + 1 + 1) := hk
            _ = 10 ^ (k + 1) * 10 := by rw [pow_succ]
        have := ih (n / 10) k (by omega) hk1
        omega

/-- `decStr n` is the decimal representation of `n`: a non-empty string of
decimal digits, without leading zero unless `n = 0`, that stands for `n`. -/
theorem decStr_spec (n : Nat) :
    decStr n ≠ [] ∧ (∀ c ∈ decStr n, isDecDigit c = true) ∧ decValue (decStr n) = n ∧
      (n ≠ 0 → (decStr n).head? ≠ some '0') :=
  decDigits_spec (n + 1) n (Nat.lt_succ_self n)

theorem leftPad_of_le (width : Nat) (c : Char) (s : Str) (h : width ≤ s.length) :
    leftPad width c s = s := by
  simp [leftPad, Nat.sub_eq_zero_of_le h]

theorem leftPad_length (width : Nat) (c : Char) (s : Str) :
    (leftPad width c s).length = max width s.length := by
  simp only [leftPad, List.length_append, List.length_replicate]
  omega

theorem decStr_length_pos (n : Nat) : 1 ≤ (decStr n).length := by
  have h := (decStr_spec n).1
  cases hd : decStr n with
  | nil => exact absurd hd h
  | cons a as => simp

/-- The two seconds digits. -/
theorem leftPad_seconds (sec : Nat) (h : sec < 60) :
    leftPad 2 '0' (decStr sec) = [digitChar (sec / 10), digitChar (sec % 10)] := by
  interval_cases sec <;> rfl

/-- What `SetDuration` stores for a duration that is not negative. -/
theorem SetDuration_nonneg (s : Song) (d : I32) (h : 0 ≤ d.val) :
    (s.SetDuration d).DurationString =
      leftPad 2 ' ' (decStr (d.val.toNat / 60)) ++
        ':' :: leftPad 2 '0' (decStr (d.val.toNat % 60)) := by
  obtain ⟨n, hn⟩ : ∃ n : Nat, d.val = (n : Int) := ⟨d.val.toNat, (Int.toNat_of_nonneg h).symm⟩
  have hhi : d.val ≤ 2147483647 := d.property.2
  have hn31 : n ≤ 2147483647 := by omega
  have hm : wrapInt32 (wrapUInt32 (Int.tdiv d.val 60)) = ((n / 60 : Nat) : Int) := by
    rw [Int.tdiv_eq_ediv h (by decide)]
    unfold wrapInt32 wrapUInt32
    omega
  have hs : wrapInt32 (wrapUInt32 (d.val - wrapUInt32 (wrapUInt32 (Int.tdiv d.val 60) * 60))) =
      ((n % 60 : Nat) : Int) := by
    rw [Int.tdiv_eq_ediv h (by decide)]
    unfold wrapInt32 wrapUInt32
    omega
  have hlen : (decStr (n / 60)).length ≤ 8 :=
    decDigits_length (n / 60 + 1) (n / 60) 7 (Nat.lt_succ_self _) (by omega)
  have hsec : n % 60 < 60 := Nat.mod_lt _ (by decide)
  have hneg1 : ¬ ((n / 60 : Nat) : Int) < 0 := by omega
  have hneg2 : ¬ ((n % 60 : Nat) : Int) < 0 := by omega
  simp only [Song.SetDuration, Song.DurationString, hm, hs, printfD]
  simp only [hneg1, hneg2, if_false, Int.natAbs_ofNat, hn, Int.toNat_ofNat]
  rw [leftPad_of_le 1 '0' _ (decStr_length_pos _), leftPad_of_le 0 ' ' _ (Nat.zero_le _)]
  apply List.take_of_length_le
  simp only [List.length_append, List.length_cons, leftPad_length, leftPad_seconds _ hsec,
    List.length_nil]
  omega

/-- C15 (as amended): for every duration `d >= 0`, after `SetDuration(d)` the
duration string is exactly the decimal representation of `d div 60`
right-aligned in a field two characters wide (one space precedes a
single-digit number of minutes), then `:`, then `d mod 60` as two decimal
digits, with no other characters; e.g. `SetDuration(65)` gives `" 1:05"`. -/
theorem SetDuration_display (s : Song) (d : I32) (h : 0 ≤ d.val) :
    (s.SetDuration d).DurationString =
        List.replicate (2 - (decStr (d.val.toNat / 60)).length) ' ' ++
          decStr (d.val.toNat / 60) ++
          [':', digitChar (d.val.toNat % 60 / 10), digitChar (d.val.toNat % 60 % 10)] ∧
      decValue (decStr (d.val.toNat / 60)) = d.val.toNat / 60 ∧
      (∀ c ∈ decStr (d.val.toNat / 60), isDecDigit c = true) ∧
      (d.val.toNat / 60 ≠ 0 → (decStr (d.val.toNat / 60)).head? ≠ some '0') := by
  have hsec : d.val.toNat % 60 < 60 := Nat.mod_lt _ (by decide)
  obtain ⟨-, h2, h3, h4⟩ := decStr_spec (d.val.toNat / 60)
  refine ⟨?_, h3, h2, h4⟩
  rw [SetDuration_nonneg s d h, leftPad_seconds _ hsec]
  simp [leftPad]

/-- Witness of C15: 65 seconds. -/
theorem SetDuration_display_witness :
    (Song.new.SetDuration (I32.ofInt 65)).DurationString = " 1:05".toList :=
  (SetDuration_display Song.new (I32.ofInt 65) (by decide)).1

/-- C15 fails as stated: `SetDuration(65)` stores `" 1:05"`, with a space in
front, where the decimal representation of 1, a colon and 05 make `"1:05"`. -/
theorem SetDuration_display_counterexample :
    (Song.new.SetDuration (I32.ofInt 65)).DurationString = " 1:05".toList ∧
    decStr (65 / 60) ++ [':', digitChar (65 % 60 / 10), digitChar (65 % 60 % 10)] =
      "1:05".toList ∧
    (Song.new.SetDuration (I32.ofInt 65)).DurationString ≠ "1:05".toList := by
  decide

theorem dropWhile_append_of_all (p : Char → Bool) (xs ys : Str) (h : ∀ c ∈ xs, p c = true) :
    (xs ++ ys).dropWhile p = ys.dropWhile p := by
  induction xs with
  | nil => rfl
  | cons x xs ih =>
    simp only [List.cons_append, List.dropWhile, h x (List.mem_cons_self x xs)]
    exact ih (fun c hc => h c (List.mem_cons_of_mem x hc))

theorem takeWhile_append_of_all (p : Char → Bool) (xs ys : Str) (h : ∀ c ∈ xs, p c = true) :
    (xs ++ ys).takeWhile p = xs ++ ys.takeWhile p := by
  induction xs with
  | nil => rfl
  | cons x xs ih =>
    simp only [List.cons_append, List.takeWhile, h x (List.mem_cons_self x xs)]
    exact congrArg (List.cons x) (ih (fun c hc => h c (List.mem_cons_of_mem x hc)))

theorem isDecDigit_ne_space (c : Char) (h : isDecDigit c = true) : c ≠ ' ' := by
  rintro rfl
  revert h
  decide

/-- Reading back a string of the shape `SetDuration` writes. -/
theorem parseDuration_shape (pad m sec : Nat) (hsec : sec < 60) :
    parseDuration (List.replicate pad ' ' ++ decStr m ++
      [':', digitChar (sec / 10), digitChar (sec % 10)]) = some (60 * m + sec) := by
  obtain ⟨h1, h2, h3, -⟩ := decStr_spec m
  have hcolon : isDecDigit ':' = false := by decide
  have e1 : (List.replicate pad ' ' ++ decStr m ++
      [':', digitChar (sec / 10), digitChar (sec % 10)]).dropWhile (fun c => decide (c = ' ')) =
      decStr m ++ [':', digitChar (sec / 10), digitChar (sec % 10)] := by
    rw [List.append_assoc, dropWhile_append_of_all _ _ _ (by
      intro c hc
      simp [(List.mem_replicate.1 hc).2])]
    cases hd : decStr m with
    | nil => exact absurd hd h1
    | cons a as =>
      have ha : a ≠ ' ' := isDecDigit_ne_space a (h2 a (by rw [hd]; exact List.mem_cons_self a as))
      simp [List.dropWhile, ha]
  have e2 : (decStr m ++ [':', digitChar (sec / 10), digitChar (sec % 10)]).takeWhile isDecDigit =
      decStr m := by
    rw [takeWhile_append_of_all _ _ _ h2]
    simp [List.takeWhile, hcolon]
  have e3 : (decStr m ++ [':', digitChar (sec / 10), digitChar (sec % 10)]).dropWhile isDecDigit =
      [':', digitChar (sec / 10), digitChar (sec % 10)] := by
    rw [dropWhile_append_of_all _ _ _ h2]
    simp [List.dropWhile, hcolon]
  have e4 : decValue [digitChar (sec / 10), digitChar (sec % 10)] = sec := by
    have ha := digitChar_toNat (sec / 10) (by omega)
    have hb := digitChar_toNat (sec % 10) (by omega)
    simp only [decValue, List.foldl, ha, hb]
    omega
  unfold parseDuration
  simp only [e1, e2, e3, e4, h3]
  simp [h1, isDecDigit_digitChar (sec / 10) (by omega), isDecDigit_digitChar (sec % 10) (by omega)]

/-- C19: for every duration `d` with `0 <= d <= 2^31 - 1` (the non-negative
`int32_t` values) the string `SetDuration(d)` stores is: spaces (possibly
none), a decimal number `m`, `:`, exactly two decimal digits of a number `sec`,
with `0 <= sec <= 59` and `60 * m + sec = d`; read back, the string gives `d`;
and the unsigned 32-bit computations of minutes and seconds (the cast of
`d / 60`, `minutes * 60`, `d - minutes * 60`) and their printing as `int` stay
in range, so none wraps. -/
theorem SetDuration_roundtrip (s : Song) (d : I32) (h : 0 ≤ d.val) :
    (∃ pad m sec,
      (s.SetDuration d).DurationString =
          List.replicate pad ' ' ++ decStr m ++
            [':', digitChar (sec / 10), digitChar (sec % 10)] ∧
        (∀ c ∈ decStr m, isDecDigit c = true) ∧ decValue (decStr m) = m ∧
        sec ≤ 59 ∧ ((60 * m + sec : Nat) : Int) = d.val) ∧
    parseDuration (s.SetDuration d).DurationString = some d.val.toNat ∧
    wrapUInt32 (Int.tdiv d.val 60) = Int.tdiv d.val 60 ∧
    wrapUInt32 (Int.tdiv d.val 60 * 60) = Int.tdiv d.val 60 * 60 ∧
    wrapUInt32 (d.val - Int.tdiv d.val 60 * 60) = d.val - Int.tdiv d.val 60 * 60 ∧
    wrapInt32 (Int.tdiv d.val 60) = Int.tdiv d.val 60 ∧
    wrapInt32 (d.val - Int.tdiv d.val 60 * 60) = d.val - Int.tdiv d.val 60 * 60 := by
  have hsec : d.val.toNat % 60 < 60 := Nat.mod_lt _ (by decide)
  have hshape := (SetDuration_display s d h).1
  have hhi : d.val ≤ 2147483647 := d.property.2
  have hnat : ((d.val.toNat : Nat) : Int) = d.val := Int.toNat_of_nonneg h
  refine ⟨⟨_, _, _, hshape, (decStr_spec _).2.1, (decStr_spec _).2.2.1, by omega, ?_⟩, ?_, ?_⟩
  · rw [← hnat]
    omega
  · rw [hshape, parseDuration_shape _ _ _ hsec]
    congr 1
    omega
  · rw [Int.tdiv_eq_ediv h (by decide)]
    unfold wrapUInt32 wrapInt32
    refine ⟨?_, ?_, ?_, ?_, ?_⟩ <;> omega

/-- Witness of C19: 3599 seconds. -/
theorem SetDuration_roundtrip_witness :
    parseDuration (Song.new.SetDuration (I32.ofInt 3599)).DurationString = some 3599 :=
  (SetDuration_roundtrip Song.new (I32.ofInt 3599) (by decide)).2.1

/-! ## Sequences of calls on the reference counter -/

theorem pairsAdded_append (a b : List Notification) :
    pairsAdded (a ++ b) = pairsAdded a + pairsAdded b := by
  induction a with
  | nil => simp [pairsAdded]
  | cons x xs ih => cases x <;> simp [pairsAdded, ih] <;> omega

theorem pairsRemoved_append (a b : List Notification) :
    pairsRemoved (a ++ b) = pairsRemoved a + pairsRemoved b := by
  induction a with
  | nil => simp [pairsRemoved]
  | cons x xs ih => cases x <;> simp [pairsRemoved, ih] <;> omega

theorem pairs_alternating (entry : Nat) (uri : Str) (k : Nat) :
    pairsAdded (alternating entry uri k) = (k + 1) / 2 ∧
      pairsRemoved (alternating entry uri k) = k / 2 := by
  induction k with
  | zero => exact ⟨rfl, rfl⟩
  | succ k ih =>
    obtain ⟨h1, h2⟩ := ih
    by_cases hk : k % 2 = 0
    · simp only [alternating, hk, if_true, pairsAdded_append, pairsRemoved_append, h1, h2,
        pairsAdded, pairsRemoved]
      omega
    · simp only [alternating, hk, if_false, pairsAdded_append, pairsRemoved_append, h1, h2,
        pairsAdded, pairsRemoved]
      omega

theorem runOps_cons_fst (s : Song) (op : RefOp) (ops : List RefOp) :
    (s.runOps (op :: ops)).1 = ((s.applyOp op).1.runOps ops).1 := rfl

theorem runOps_cons_snd (s : Song) (op : RefOp) (ops : List RefOp) :
    (s.runOps (op :: ops)).2 = (s.applyOp op).2 ++ ((s.applyOp op).1.runOps ops).2 := rfl

/-- The invariant of the counter along a sequence of calls, from any state in
which it holds. -/
theorem runOps_invariant (entry : Nat) (ops : List RefOp) :
    ∀ (s : Song) (k : Nat), s.entry_ = some entry → 0 ≤ s.reference_.val →
      (k % 2 = 1 ↔ 0 < s.reference_.val) →
      (∀ p, p <+: ops → 0 ≤ s.reference_.val + balance p ∧
        s.reference_.val + balance p ≤ INT32_MAX) →
      (s.runOps ops).1.reference_.val = s.reference_.val + balance ops ∧
        ∃ k1, alternating entry s.uri_ k ++ (s.runOps ops).2 = alternating entry s.uri_ k1 ∧
          (k1 % 2 = 1 ↔ 0 < (s.runOps ops).1.reference_.val) := by
  induction ops with
  | nil =>
    intro s k _ _ hk _
    exact ⟨by simp [Song.runOps, balance], k, by simp [Song.runOps], by simpa [Song.runOps] using hk⟩
  | cons op ops ih =>
    intro s k he h0 hk hb
    have hlo := s.reference_.property.1
    have hhi := s.reference_.property.2
    have hstep := hb [op] (by simp)
    rw [runOps_cons_fst, runOps_cons_snd]
    cases op with
    | increment =>
      simp only [balance, add_zero] at hstep
      simp only [Song.applyOp]
      have hfst := IncrementReference_fst s
      have hsnd := IncrementReference_snd s
      have hval : s.IncrementReference.1.reference_.val = s.reference_.val + 1 := by
        rw [hfst]
        exact wrapInt32_of_range _ (by unfold INT32_MIN; omega) hstep.2
      have he1 : s.IncrementReference.1.entry_ = some entry := by rw [hfst]; exact he
      have hu1 : s.IncrementReference.1.uri_ = s.uri_ := by rw [hfst]
      rw [he] at hsnd
      simp only at hsnd
      have hrest : ∀ p, p <+: ops → 0 ≤ s.IncrementReference.1.reference_.val + balance p ∧
          s.IncrementReference.1.reference_.val + balance p ≤ INT32_MAX := by
        intro p hp
        have := hb (RefOp.increment :: p) (by simpa using hp)
        simp only [balance] at this
        rw [hval]
        omega
      by_cases hz : s.reference_.val = 0
      · have hk1 : (k + 1) % 2 = 1 ↔ 0 < s.IncrementReference.1.reference_.val := by
          rw [hval]; omega
        obtain ⟨i1, k1, i2, i3⟩ := ih s.IncrementReference.1 (k + 1) he1 (by omega) hk1 hrest
        refine ⟨?_, k1, ?_, i3⟩
        · rw [i1, hval]
          simp only [balance]
          omega
        · have hkeven : k % 2 = 0 := by omega
          rw [hu1] at i2
          rw [← i2, hsnd, if_pos hz, ← List.append_assoc]
          simp [alternating, hkeven, addedPair, Song.URI]
      · have hk1 : k % 2 = 1 ↔ 0 < s.IncrementReference.1.reference_.val := by
          rw [hval]; omega
        obtain ⟨i1, k1, i2, i3⟩ := ih s.IncrementReference.1 k he1 (by omega) hk1 hrest
        refine ⟨?_, k1, ?_, i3⟩
        · rw [i1, hval]
          simp only [balance]
          omega
        · rw [hu1] at i2
          rw [hsnd, if_neg hz, List.nil_append]
          exact i2
    | decrement =>
      simp only [balance, add_zero] at hstep
      simp only [Song.applyOp]
      have hfst := DecrementReference_fst s
      have hsnd := DecrementReference_snd s
      have hval : s.DecrementReference.1.reference_.val = s.reference_.val - 1 := by
        rw [hfst]
        exact wrapInt32_of_range _ (by unfold INT32_MIN; omega) (by omega)
      have he1 : s.DecrementReference.1.entry_ = some entry := by rw [hfst]; exact he
      have hu1 : s.DecrementReference.1.uri_ = s.uri_ := by rw [hfst]
      rw [he] at hsnd
      simp only at hsnd
      have hrest : ∀ p, p <+: ops → 0 ≤ s.DecrementReference.1.reference_.val + balance p ∧
          s.DecrementReference.1.reference_.val + balance p ≤ INT32_MAX := by
        intro p hp
        have := hb (RefOp.decrement :: p) (by simpa using hp)
        simp only [balance] at this
        rw [hval]
        omega
      by_cases hz : s.reference_.val = 1
      · have hk1 : (k + 1) % 2 = 1 ↔ 0 < s.DecrementReference.1.reference_.val := by
          rw [hval]; omega
        obtain ⟨i1, k1, i2, i3⟩ := ih s.DecrementReference.1 (k + 1) he1 (by omega) hk1 hrest
        refine ⟨?_, k1, ?_, i3⟩
        · rw [i1, hval]
          simp only [balance]
          omega
        · have hkodd : ¬ k % 2 = 0 := by omega
          rw [hu1] at i2
          rw [← i2, hsnd, if_pos hz, ← List.append_assoc]
          simp [alternating, hkodd, removedPair, Song.URI]
      · have hk1 : k % 2 = 1 ↔ 0 < s.DecrementReference.1.reference_.val := by
          rw [hval]; omega
        obtain ⟨i1, k1, i2, i3⟩ := ih s.DecrementReference.1 k he1 (by omega) hk1 hrest
        refine ⟨?_, k1, ?_, i3⟩
        · rw [i1, hval]
          simp only [balance]
          omega
        · rw [hu1] at i2
          rw [hsnd, if_neg hz, List.nil_append]
          exact i2

/-- C16: from a song with count 0 and a back-reference, along every finite
sequence of `IncrementReference` / `DecrementReference` calls in which no
prefix has more decrements than increments (and none has more than
`INT32_MAX` increments in excess, the largest count an `int32_t` holds), after
every step the count equals the number of increments less the number of
decrements and is not negative, the notifications made so far are a run of the
alternation added pair, removed pair, added pair, ... beginning with added,
and the number of added pairs less the number of removed pairs is 1 exactly
when the count is positive and 0 exactly when the count is 0. -/
theorem reference_counter_invariant (s : Song) (entry : Nat) (ops : List RefOp)
    (h0 : s.reference_.val = 0) (he : s.entry_ = some entry)
    (hbal : ∀ p, p <+: ops → 0 ≤ balance p ∧ balance p ≤ INT32_MAX) :
    ∀ p, p <+: ops →
      (s.runOps p).1.reference_.val = balance p ∧
      0 ≤ (s.runOps p).1.reference_.val ∧
      (s.runOps p).1.entry_ = some entry ∧
      (∃ k, (s.runOps p).2 = alternating entry s.URI k) ∧
      ((pairsAdded (s.runOps p).2 : Int) - pairsRemoved (s.runOps p).2 = 1 ↔
        0 < (s.runOps p).1.reference_.val) ∧
      ((pairsAdded (s.runOps p).2 : Int) - pairsRemoved (s.runOps p).2 = 0 ↔
        (s.runOps p).1.reference_.val = 0) := by
  intro p hp
  have hb : ∀ q, q <+: p → 0 ≤ s.reference_.val + balance q ∧
      s.reference_.val + balance q ≤ INT32_MAX := by
    intro q hq
    have := hbal q (hq.trans hp)
    rw [h0]
    simpa using this
  obtain ⟨i1, k, i2, i3⟩ := runOps_invariant entry p s 0 he (by omega) (by omega) hb
  have hent : ∀ (l : List RefOp) (t : Song), t.entry_ = some entry →
      (t.runOps l).1.entry_ = some entry := by
    intro l
    induction l with
    | nil => intro t ht; exact ht
    | cons op l ih =>
      intro t ht
      rw [runOps_cons_fst]
      apply ih
      cases op
      · simp only [Song.applyOp]
        rw [IncrementReference_fst]
        exact ht
      · simp only [Song.applyOp]
        rw [DecrementReference_fst]
        exact ht
  have hcount : (s.runOps p).1.reference_.val = balance p := by rw [i1, h0]; simp
  have hnonneg : 0 ≤ (s.runOps p).1.reference_.val := by rw [hcount]; exact (hbal p hp).1
  have hev : (s.runOps p).2 = alternating entry s.uri_ k := by simpa [alternating] using i2
  obtain ⟨ha, hr⟩ := pairs_alternating entry s.uri_ k
  refine ⟨hcount, hnonneg, hent p s he, ⟨k, hev⟩, ?_, ?_⟩
  · rw [hev, ha, hr]
    omega
  · rw [hev, ha, hr]
    omega

/-- Witness of C16: a fresh song attached to a library entry enters two
playlists, leaves both and enters one again. -/
theorem reference_counter_invariant_witness :
    (exampleSongInLibrary.runOps
      [RefOp.increment, RefOp.increment, RefOp.decrement, RefOp.decrement,
        RefOp.increment]).1.reference_.val = 1 ∧
    (exampleSongInLibrary.runOps
      [RefOp.increment, RefOp.increment, RefOp.decrement, RefOp.decrement,
        RefOp.increment]).2 = alternating 7 [] 3 :=
  have h := reference_counter_invariant exampleSongInLibrary 7
    [RefOp.increment, RefOp.increment, RefOp.decrement, RefOp.decrement, RefOp.increment]
    (by decide) (by decide)
    (fun p hp =>
      (by decide : ∀ q ∈ List.inits
        [RefOp.increment, RefOp.increment, RefOp.decrement, RefOp.decrement, RefOp.increment],
        0 ≤ balance q ∧ balance q ≤ INT32_MAX) p ((List.mem_inits _ _).2 hp))
    _ (List.prefix_refl _)
  ⟨h.1, by decide⟩

/-! ## Termination of the renderer -/

theorem whileCondT_out (k : Str → Bool → Str → Str → Except ParseError ParseResult)
    (kT : Str → Bool → Str → Str → Traced)
    (h : ∀ it valid result fm, (kT it valid result fm).out = k it valid result fm)
    (it : Str) (valid : Bool) (result fm : Str) :
    (whileCondT kT it valid result fm).out = whileCond k it valid result fm := by
  cases it with
  | nil => rfl
  | cons c it1 =>
    simp only [whileCondT, whileCond, loopTest]
    by_cases hn : peek it1 = NUL
    · simp [hn]
    · simp only [hn, if_false]
      exact h _ _ _ _

/-- The logging loop computes what the loop computes. -/
theorem ParseStringLoopT_out (song : Song) (fuel : Nat) :
    ∀ depth it valid result fm,
      (ParseStringLoopT song fuel depth it valid result fm).out =
        ParseStringLoop song fuel it valid result fm := by
  induction fuel with
  | zero => intro depth it valid result fm; rfl
  | succ n ih =>
    intro depth it valid result fm
    cases it with
    | nil => rfl
    | cons c it1 =>
      simp only [ParseStringLoopT, ParseStringLoop, Traced.after]
      by_cases h1 : c = '\\'
      · simp only [h1, if_true]
        exact whileCondT_out _ _ (ih depth) _ _ _ _
      simp only [h1, if_false]
      by_cases h2 : c = '\x7b'
      · simp only [h2, if_true]
        rw [ih (depth + 1) it1 valid [] fm]
        cases ParseStringLoop song n it1 valid [] fm with
        | error e => rfl
        | ok r => exact whileCondT_out _ _ (ih depth) _ _ _ _
      simp only [h2, if_false]
      by_cases h3 : c = '\x7d'
      · cases valid <;> simp [h3]
      simp only [h3, if_false]
      by_cases h4 : c = '|'
      · simp only [h4, if_true]
        exact whileCondT_out _ _ (ih depth) _ _ _ _
      simp only [h4, if_false]
      by_cases h5 : c = '%'
      · simp only [h5, if_true]
        by_cases h6 : peek it1 = '%'
        · simp only [h6, if_true]
          exact whileCondT_out _ _ (ih depth) _ _ _ _
        simp only [h6, if_false]
        by_cases h7 : isField (peek it1) = true
        · simp only [h7, if_true]
          by_cases h8 : isUnknown (fieldValue song (peek it1)) = true
          · simp only [h8, if_true]
            exact whileCondT_out _ _ (ih depth) _ _ _ _
          · simp only [h8]
            exact whileCondT_out _ _ (ih depth) _ _ _ _
        · simp only [h7]
          exact whileCondT_out _ _ (ih depth) _ _ _ _
      simp only [h5, if_false]
      exact whileCondT_out _ _ (ih depth) _ _ _ _

theorem count_le_of_suffix (x it : Str) (h : x <:+ it) (c : Char) : x.count c ≤ it.count c :=
  h.sublist.count_le c

theorem GoodTail.mono (depth : Nat) (x it : Str) (t : Traced) (hx : x <:+ it)
    (h : GoodTail depth x t) : GoodTail depth it t := by
  obtain ⟨h1, h2, h3⟩ := h
  have hl := hx.length_le
  have hc := count_le_of_suffix x it hx '\x7b'
  refine ⟨?_, h2, ?_⟩
  · intro e he
    obtain ⟨a, b, c⟩ := h1 e he
    exact ⟨by omega, b, by omega⟩
  · intro r hr
    obtain ⟨a, b⟩ := h3 r hr
    exact ⟨a.trans hx, b⟩

theorem GoodRun.after (depth : Nat) (it : Str) (t : Traced) (h : GoodTail depth it t) :
    GoodRun depth it (Traced.after (depth, it.length) t) := by
  obtain ⟨h1, h2, h3⟩ := h
  refine ⟨?_, ?_, ?_⟩
  · intro e he
    simp only [Traced.after, List.mem_cons] at he
    rcases he with rfl | he
    · exact ⟨le_refl _, le_refl _, Nat.le_add_right _ _⟩
    · obtain ⟨a, b, c⟩ := h1 e he
      exact ⟨by omega, b, c⟩
  · simp only [Traced.after, List.pairwise_cons]
    exact ⟨fun e he => (h1 e he).1, h2⟩
  · intro r hr
    obtain ⟨a, b⟩ := h3 r hr
    refine ⟨a, ?_⟩
    intro e he
    simp only [Traced.after, List.mem_cons] at he
    rcases he with rfl | he
    · exact a.length_le
    · exact b e he

theorem whileCondT_good (k : Str → Bool → Str → Str → Traced) (depth : Nat)
    (hk : ∀ y valid result fm, GoodRun depth y (k y valid result fm))
    (x : Str) (valid : Bool) (result fm : Str) :
    GoodTail depth x (whileCondT k x valid result fm) := by
  cases x with
  | nil =>
    refine ⟨?_, ?_, ?_⟩
    · intro e he; simp [whileCondT] at he
    · simp [whileCondT]
    · intro r hr; simp [whileCondT] at hr
  | cons c x1 =>
    simp only [whileCondT]
    by_cases hn : peek x1 = NUL
    · simp only [hn, if_true]
      refine ⟨?_, ?_, ?_⟩
      · intro e he; simp at he
      · simp
      · intro r hr
        simp only [Except.ok.injEq] at hr
        subst hr
        exact ⟨List.suffix_cons c x1, by simp⟩
    · simp only [hn, if_false]
      obtain ⟨h1, h2, h3⟩ := hk x1 valid result fm
      have hc := count_le_of_suffix x1 (c :: x1) (List.suffix_cons c x1) '\x7b'
      refine ⟨?_, h2, ?_⟩
      · intro e he
        obtain ⟨a, b, d⟩ := h1 e he
        exact ⟨by simp only [List.length_cons]; omega, b, by omega⟩
      · intro r hr
        obtain ⟨a, b⟩ := h3 r hr
        exact ⟨a.trans (List.suffix_cons c x1), b⟩

/-- Every logged run of the loop is a good run. -/
theorem ParseStringLoopT_good (song : Song) (fuel : Nat) :
    ∀ depth it valid result fm,
      GoodRun depth it (ParseStringLoopT song fuel depth it valid result fm) := by
  induction fuel with
  | zero =>
    intro depth it valid result fm
    refine ⟨?_, ?_, ?_⟩
    · intro e he; simp [ParseStringLoopT] at he
    · simp [ParseStringLoopT]
    · intro r hr; simp [ParseStringLoopT] at hr
  | succ n ih =>
    intro depth it valid result fm
    cases it with
    | nil =>
      refine ⟨?_, ?_, ?_⟩
      · intro e he
        simp only [ParseStringLoopT, List.mem_singleton] at he
        subst he
        simp
      · simp [ParseStringLoopT]
      · intro r hr; simp [ParseStringLoopT] at hr
    | cons c it1 =>
      have hs1 : it1 <:+ c :: it1 := List.suffix_cons c it1
      simp only [ParseStringLoopT]
      apply GoodRun.after
      by_cases h1 : c = '\\'
      · simp only [h1, if_true]
        exact GoodTail.mono _ _ _ _ (List.suffix_cons _ _) (whileCondT_good _ depth (ih depth) _ _ _ _)
      simp only [h1, if_false]
      by_cases h2 : c = '\x7b'
      · simp only [h2, if_true]
        obtain ⟨n1, n2, n3⟩ := ih (depth + 1) it1 valid [] fm
        have hcount : ('\x7b' :: it1).count '\x7b' = it1.count '\x7b' + 1 := by simp
        cases hout : (ParseStringLoopT song n (depth + 1) it1 valid [] fm).out with
        | error e =>
          refine ⟨?_, n2, ?_⟩
          · intro e he
            obtain ⟨a, b, d⟩ := n1 e he
            exact ⟨by simp only [List.length_cons]; omega, by omega, by omega⟩
          · intro r hr; simp at hr
        | ok r =>
          obtain ⟨r1, r2⟩ := n3 r hout
          obtain ⟨w1, w2, w3⟩ := whileCondT_good _ depth (ih depth) r.it r.valid
            (result ++ r.result) r.formatted
          have hrl := r1.length_le
          have hrc := count_le_of_suffix r.it it1 r1 '\x7b'
          refine ⟨?_, ?_, ?_⟩
          · intro e he
            simp only [List.mem_append] at he
            rcases he with he | he
            · obtain ⟨a, b, d⟩ := n1 e he
              exact ⟨by simp only [List.length_cons]; omega, by omega, by omega⟩
            · obtain ⟨a, b, d⟩ := w1 e he
              exact ⟨by simp only [List.length_cons]; omega, b, by omega⟩
          · simp only [List.pairwise_append]
            refine ⟨n2, w2, ?_⟩
            intro a ha b hb
            have := r2 a ha
            have := (w1 b hb).1
            omega
          · intro r' hr'
            obtain ⟨a, b⟩ := w3 r' hr'
            refine ⟨(a.trans r1).trans (List.suffix_cons _ _), ?_⟩
            intro e he
            simp only [List.mem_append] at he
            rcases he with he | he
            · have := r2 e he
              have := a.length_le
              omega
            · exact b e he
      simp only [h2, if_false]
      by_cases h3 : c = '\x7d'
      · simp only [h3, if_true]
        cases valid
        · refine ⟨?_, ?_, ?_⟩
          · intro e he; simp at he
          · simp
          · intro r hr
            simp only [Bool.false_eq_true, if_false, Except.ok.injEq] at hr
            subst hr
            exact ⟨List.suffix_refl _, by simp⟩
        · refine ⟨?_, ?_, ?_⟩
          · intro e he; simp at he
          · simp
          · intro r hr
            simp only [if_true, Except.ok.injEq] at hr
            subst hr
            exact ⟨List.suffix_refl _, by simp⟩
      simp only [h3, if_false]
      by_cases h4 : c = '|'
      · simp only [h4, if_true]
        exact whileCondT_good _ depth (ih depth) _ _ _ _
      simp only [h4, if_false]
      by_cases h5 : c = '%'
      · simp only [h5, if_true]
        by_cases h6 : peek it1 = '%'
        · simp only [h6, if_true]
          exact GoodTail.mono _ _ _ _ (List.suffix_cons _ _)
            (whileCondT_good _ depth (ih depth) _ _ _ _)
        simp only [h6, if_false]
        by_cases h7 : isField (peek it1) = true
        · simp only [h7, if_true]
          by_cases h8 : isUnknown (fieldValue song (peek it1)) = true
          · simp only [h8, if_true]
            exact GoodTail.mono _ _ _ _ (List.suffix_cons _ _)
              (whileCondT_good _ depth (ih depth) _ _ _ _)
          · simp only [h8]
            exact GoodTail.mono _ _ _ _ (List.suffix_cons _ _)
              (whileCondT_good _ depth (ih depth) _ _ _ _)
        · simp only [h7]
          exact GoodTail.mono _ _ _ _ (List.suffix_cons _ _)
            (whileCondT_good _ depth (ih depth) _ _ _ _)
      simp only [h5, if_false]
      exact whileCondT_good _ depth (ih depth) _ _ _ _

/-- A call of the loop that returns leaves the iterator at or behind the place
it was entered at. -/
theorem ParseStringLoop_suffix (song : Song) (fuel : Nat) (it : Str) (valid : Bool)
    (result fm : Str) (r : ParseResult)
    (h : ParseStringLoop song fuel it valid result fm = .ok r) : r.it <:+ it := by
  have hg := ParseStringLoopT_good song fuel 0 it valid result fm
  rw [← ParseStringLoopT_out song fuel 0] at h
  exact (hg.2.2 r h).1

theorem whileCond_fuel (k : Str → Bool → Str → Str → Except ParseError ParseResult) (n : Nat)
    (hk : ∀ y valid result fm, y.length < n → k y valid result fm ≠ .error .outOfFuel)
    (x : Str) (hx : x.length ≤ n) (valid : Bool) (result fm : Str) :
    whileCond k x valid result fm ≠ .error .outOfFuel := by
  cases x with
  | nil => simp [whileCond]
  | cons c x1 =>
    simp only [whileCond, loopTest]
    by_cases hn : peek x1 = NUL
    · simp [hn]
    · simp only [hn, if_false]
      exact hk _ _ _ _ (by simp only [List.length_cons] at hx; omega)

/-- With more iterations allowed than characters are left, the loop never
uses them up. -/
theorem ParseStringLoop_fuel (song : Song) (fuel : Nat) :
    ∀ it valid result fm, it.length < fuel →
      ParseStringLoop song fuel it valid result fm ≠ .error .outOfFuel := by
  induction fuel with
  | zero => intro it valid result fm h; omega
  | succ n ih =>
    intro it valid result fm hlen
    cases it with
    | nil => simp [ParseStringLoop]
    | cons c it1 =>
      have h0 : (c :: it1).length ≤ n := by omega
      have h1' : it1.length ≤ n := by simp only [List.length_cons] at h0; omega
      simp only [ParseStringLoop]
      by_cases h1 : c = '\\'
      · simp only [h1, if_true]
        exact whileCond_fuel _ n ih _ h1' _ _ _
      simp only [h1, if_false]
      by_cases h2 : c = '\x7b'
      · simp only [h2, if_true]
        have hn := ih it1 valid [] fm (by simp only [List.length_cons] at h0; omega)
        cases hout : ParseStringLoop song n it1 valid [] fm with
        | error e =>
          rw [hout] at hn
          simpa using hn
        | ok r =>
          have hs := (ParseStringLoop_suffix song n it1 valid [] fm r hout).length_le
          exact whileCond_fuel _ n ih _ (by omega) _ _ _
      simp only [h2, if_false]
      by_cases h3 : c = '\x7d'
      · cases valid <;> simp [h3]
      simp only [h3, if_false]
      by_cases h4 : c = '|'
      · simp only [h4, if_true]
        exact whileCond_fuel _ n ih _ h0 _ _ _
      simp only [h4, if_false]
      by_cases h5 : c = '%'
      · simp only [h5, if_true]
        by_cases h6 : peek it1 = '%'
        · simp only [h6, if_true]
          exact whileCond_fuel _ n ih _ h1' _ _ _
        simp only [h6, if_false]
        by_cases h7 : isField (peek it1) = true
        · simp only [h7, if_true]
          by_cases h8 : isUnknown (fieldValue song (peek it1)) = true
          · simp only [h8, if_true]
            exact whileCond_fuel _ n ih _ h1' _ _ _
          · simp only [h8]
            exact whileCond_fuel _ n ih _ h1' _ _ _
        · simp only [h7]
          exact whileCond_fuel _ n ih _ h1' _ _ _
      simp only [h5, if_false]
      exact whileCond_fuel _ n ih _ h0 _ _ _

/-- Inside the template the parse is bounded. The iterations `FormatString`
allows its parse, one more than the template has characters, are never used
up: a run ends in a returned string or at a read behind the terminator. The
log of the parse, which computes what `ParseString` computes, begins with the
iteration at the start of the template at depth 0; every logged iteration
starts strictly further on than every iteration before it, in the same call or
in a nested one; none runs at a nesting depth above the number of opening
braces in the template; and every call of the loop that returns, nested or
not, leaves the iterator at or behind the place it was entered at. -/
theorem FormatString_within_bound (s : Song) (fmt : Str) :
    s.FormatString fmt ≠ .error .outOfFuel ∧
    (ParseStringLoopT s (fmt.length + 1) 0 fmt true [] s.formatted_).out =
      ParseString s (fmt.length + 1) fmt true s.formatted_ ∧
    (ParseStringLoopT s (fmt.length + 1) 0 fmt true [] s.formatted_).log.head? =
      some (0, fmt.length) ∧
    (ParseStringLoopT s (fmt.length + 1) 0 fmt true [] s.formatted_).log.Pairwise
      (fun a b => b.2 < a.2) ∧
    (∀ e ∈ (ParseStringLoopT s (fmt.length + 1) 0 fmt true [] s.formatted_).log,
      e.1 ≤ fmt.count '\x7b' ∧ e.2 ≤ fmt.length) ∧
    (∀ fuel it valid result fm r,
      ParseStringLoop s fuel it valid result fm = .ok r → r.it <:+ it) := by
  obtain ⟨g1, g2, -⟩ := ParseStringLoopT_good s (fmt.length + 1) 0 fmt true [] s.formatted_
  refine ⟨?_, ParseStringLoopT_out s _ 0 fmt true [] s.formatted_, ?_, g2, ?_,
    fun fuel it valid result fm r h => ParseStringLoop_suffix s fuel it valid result fm r h⟩
  · have hf := ParseStringLoop_fuel s (fmt.length + 1) fmt true [] s.formatted_
      (Nat.lt_succ_self _)
    unfold Song.FormatString
    by_cases hc : s.lastFormat_ = fmt
    · simp [hc]
    · simp only [hc, if_false, ParseString]
      cases hout : ParseStringLoop s (fmt.length + 1) fmt true [] s.formatted_ with
      | error e =>
        rw [hout] at hf
        simpa using hf
      | ok r => simp
  · cases fmt with
    | nil => rfl
    | cons c it1 => rfl
  · intro e he
    obtain ⟨a, -, c⟩ := g1 e he
    exact ⟨by omega, a⟩

/-- C18, the code at failing inputs. On the template `%` the one iteration of
the loop moves the iterator onto the terminator, and the loop condition then
reads behind the terminator instead of ending the parse. On `{a` the nested
call ends on the terminator and the loop condition of its caller reads behind
it. However many iterations are allowed, neither parse returns inside the
template: whether and where the loop ends, and how deep it nests, is decided
by what lies behind the template. -/
theorem ParseString_leaves_template :
    (∀ fuel r, ParseStringLoop Song.new fuel "%".toList true [] [] ≠ .ok r) ∧
    (∀ fuel r, ParseStringLoop Song.new fuel "\x7ba".toList true [] [] ≠ .ok r) ∧
    (ParseStringLoopT Song.new 2 0 "%".toList true [] []).out = .error .outOfBounds ∧
    (ParseStringLoopT Song.new 2 0 "%".toList true [] []).log = [(0, 1)] ∧
    (ParseStringLoopT Song.new 3 0 "\x7ba".toList true [] []).out = .error .outOfBounds ∧
    (ParseStringLoopT Song.new 3 0 "\x7ba".toList true [] []).log = [(0, 2), (1, 1)] := by
  have e1 : "%".toList = ['%'] := rfl
  have e2 : "\x7ba".toList = ['\x7b', 'a'] := rfl
  refine ⟨?_, ?_, by decide, by decide, by decide, by decide⟩
  · intro fuel r
    rw [e1]
    cases fuel with
    | zero => simp [ParseStringLoop]
    | succ n => simp [ParseStringLoop, whileCond, peek, isField, NUL]
  · intro fuel r
    rw [e2]
    rcases fuel with _ | _ | n
    · simp [ParseStringLoop]
    · simp [ParseStringLoop]
    · simp [ParseStringLoop, whileCond, loopTest, peek]

/-- C17, the code at failing inputs: on a fresh song the templates `%`, a lone
backslash and `{a`, and on a song that rendered "x" the empty template, each
make the parse dereference the iterator behind the NUL terminator. -/
theorem FormatString_reads_past_end :
    Song.new.FormatString "%".toList = .error .outOfBounds ∧
    Song.new.FormatString "\\".toList = .error .outOfBounds ∧
    Song.new.FormatString "\x7ba".toList = .error .outOfBounds ∧
    Song.new.FormatString "ab\x7bc".toList = .error .outOfBounds ∧
    exampleSongRenderedX.FormatString [] = .error .outOfBounds := by
  decide

/-! ## The sort-key specifiers -/

theorem isPresent_of_SwapThe (v : Str) (h : isPresent (SwapThe v) = true) :
    isPresent v = true := by
  by_contra hv
  simp only [Bool.not_eq_true] at hv
  have hsame : SwapThe v = v := by
    unfold isPresent at hv
    simp only [Bool.and_eq_false_iff, decide_eq_false_iff_not, ne_eq, not_not,
      Bool.not_eq_false', List.isPrefixOf_iff_prefix] at hv
    rcases hv with rfl | ⟨rest, rfl⟩
    · rfl
    · rfl
  rw [hsame, hv] at h
  exact Bool.false_ne_true h

theorem ParseString_spec_tok (s : Song) (c : Char) (valid : Bool) (fm : Str) :
    ParseString s 3 ['%', c] valid fm =
      .ok ⟨(Tok.spec c).render s, [], valid && (Tok.spec c).keeps s, (Tok.spec c).render s⟩ := by
  have h := loopTest_tok s (Tok.spec c) rfl [] valid [] fm 2
  rw [loopTest_nil] at h
  simp only [Tok.chars, List.append_nil, List.nil_append] at h
  rw [loopTest_of_ne _ _ _ _ _ _ (by decide)] at h
  exact h

/-- C20 (as amended): for every song and every state of the validity flag, a
render of `%a` appends the artist and leaves the flag alone when the artist is
present (non-empty and not beginning with "Unknown"), and appends nothing and
lowers the flag when it is not; a render of `%A` does the same with
`SwapThe` of the artist in place of the artist; likewise `%b` and `%B` with the
album. Whenever the sort-key specifier finds its value present, the plain
specifier does too. The converse does not hold: an artist such as
"The Unknown" is present for `%a` and not for `%A`. -/
theorem sortkey_presence (s : Song) (valid : Bool) (fm : Str) :
    ParseString s 3 "%a".toList valid fm =
      .ok ⟨if isPresent s.artist_ = true then s.artist_ else [], [],
        valid && isPresent s.artist_, if isPresent s.artist_ = true then s.artist_ else []⟩ ∧
    ParseString s 3 "%A".toList valid fm =
      .ok ⟨if isPresent (SwapThe s.artist_) = true then SwapThe s.artist_ else [], [],
        valid && isPresent (SwapThe s.artist_),
        if isPresent (SwapThe s.artist_) = true then SwapThe s.artist_ else []⟩ ∧
    ParseString s 3 "%b".toList valid fm =
      .ok ⟨if isPresent s.album_ = true then s.album_ else [], [],
        valid && isPresent s.album_, if isPresent s.album_ = true then s.album_ else []⟩ ∧
    ParseString s 3 "%B".toList valid fm =
      .ok ⟨if isPresent (SwapThe s.album_) = true then SwapThe s.album_ else [], [],
        valid && isPresent (SwapThe s.album_),
        if isPresent (SwapThe s.album_) = true then SwapThe s.album_ else []⟩ ∧
    (isPresent (SwapThe s.artist_) = true → isPresent s.artist_ = true) ∧
    (isPresent (SwapThe s.album_) = true → isPresent s.album_ = true) ∧
    isPresent "The Unknown".toList = true ∧
    isPresent (SwapThe "The Unknown".toList) = false := by
  refine ⟨?_, ?_, ?_, ?_, isPresent_of_SwapThe _, isPresent_of_SwapThe _, by decide, by decide⟩
  · exact (ParseString_spec_tok s 'a' valid fm).trans (by simp [Tok.render, Tok.keeps, specValue])
  · exact (ParseString_spec_tok s 'A' valid fm).trans (by simp [Tok.render, Tok.keeps, specValue])
  · exact (ParseString_spec_tok s 'b' valid fm).trans (by simp [Tok.render, Tok.keeps, specValue])
  · exact (ParseString_spec_tok s 'B' valid fm).trans (by simp [Tok.render, Tok.keeps, specValue])

/-- C20 fails as stated: with the artist "The Unknown", `FormatString("%a")` is
"The Unknown" and `FormatString("%A")` is the empty string, `SwapThe` having
made the value begin with "Unknown". -/
theorem sortkey_presence_counterexample :
    Except.map Prod.fst (exampleSongTheUnknown.FormatString "%a".toList) =
      .ok "The Unknown".toList ∧
    Except.map Prod.fst (exampleSongTheUnknown.FormatString "%A".toList) = .ok [] ∧
    SwapThe "The Unknown".toList = "Unknown, The".toList := by
  decide

end Mpc
